import Mathlib

/-!
# ro-imap-server.go: the filesystem mailstore and the LIST and CAPABILITY handlers

A shallow embedding of `mailstore/filesystem_mailstore.go`,
`conn/command_list.go` and `command_capability.go`.

Conventions of the embedding.

* A Go `uint32` is a `Nat`; every place where the Go code can leave the range
  `0 .. 2^32 - 1` (an increment, `seqno - 1`, `uint32(len(..))`) is reduced
  modulo `2^32` explicitly with `wrap`.
* A value of the Go interface type `Message` is an `Option FilesystemMessage`;
  `none` is the nil interface value.
* A Go function that can panic or loop returns an `Outcome`: `ok v` for a normal
  return, `panic` for a run-time panic (index out of range), `hang` when a
  `for` loop was still running after `fuel` evaluations of its condition.
-/

namespace Mailstore

/-! ## Machine integers and outcomes -/

/-- Reduction of a natural number to the range of a Go `uint32`. -/
def wrap (n : Nat) : Nat := n % 4294967296

/-- Result of running Go code that may panic or fail to leave a loop. -/
inductive Outcome (α : Type) where
  | ok : α → Outcome α
  | panic : Outcome α
  | hang : Outcome α
deriving DecidableEq, Repr

/-- Sequencing of outcomes: a panic or a hang of the first step ends the run. -/
def Outcome.bind {α β : Type} : Outcome α → (α → Outcome β) → Outcome β
  | .ok a, f => f a
  | .panic, _ => .panic
  | .hang, _ => .hang

/-! ## Data model (`filesystem_mailstore.go`, lines 15-47) -/

/-- Part of `os.FileInfo` that the mailstore reads. -/
structure FileInfo where
  isDir : Bool
  size : Nat
  modTime : Nat
deriving DecidableEq, Repr

/-- The struct `FilesystemMessage`: a single message, pointing to a file. The
pointer `info` is nil (`none`) in the zero value that `NewMessage` returns. -/
structure FilesystemMessage where
  path : String
  info : Option FileInfo
  ID : Nat
  flags : Nat
deriving DecidableEq, Repr

/-- The struct `FilesystemMailbox`: a mailbox, pointing to a directory. -/
structure FilesystemMailbox where
  path : String
  info : FileInfo
  ID : Nat
  messages : List FilesystemMessage
deriving DecidableEq, Repr

/-- A value of the Go interface `Message`; `none` is nil. -/
abbrev Message := Option FilesystemMessage

/-! ## Sequence sets (package `types`, used by the resolvers) -/

/-- Modelled from the spec: `types.SequenceNumber` is not among the sources.
The spec (section 3) makes a bound a concrete integer or the sentinel `*`, and
lets `Max` be absent; the resolvers read a bound only through `Last()`, `Nil()`
and `Value()`. -/
inductive SequenceNumber where
  | num : Nat → SequenceNumber
  | last : SequenceNumber
  | nil : SequenceNumber
deriving DecidableEq, Repr

/-- Modelled from the spec: `SequenceNumber.Last()`, true of the sentinel `*`. -/
def SequenceNumber.Last : SequenceNumber → Bool
  | .last => true
  | _ => false

/-- Modelled from the spec: `SequenceNumber.Nil()`, true of an absent bound. -/
def SequenceNumber.Nil : SequenceNumber → Bool
  | .nil => true
  | _ => false

/-- Modelled from the spec: `SequenceNumber.Value()`, a `uint32` and an error
flag. A concrete integer gives its value (as a `uint32`) and no error; `*` and
an absent bound give an error, with the zero value beside it. -/
def SequenceNumber.Value : SequenceNumber → Nat × Bool
  | .num n => (wrap n, false)
  | .last => (0, true)
  | .nil => (0, true)

/-- Modelled from the spec: `types.SequenceRange`, the pair `(Min, Max)`. -/
structure SequenceRange where
  Min : SequenceNumber
  Max : SequenceNumber
deriving DecidableEq, Repr

/-- Modelled from the spec: `types.SequenceSet`, the ranges in written order. -/
abbrev SequenceSet := List SequenceRange

/-! ## Mailbox queries (`filesystem_mailstore.go`, lines 158-207, 385-389) -/

/-- `FilesystemMessage.UID`: `m.ID + 1` in `uint32`. -/
def FilesystemMessage.UID (m : FilesystemMessage) : Nat := wrap (m.ID + 1)

/-- `FilesystemMessage.SequenceNumber`: `m.ID + 1` in `uint32`. -/
def FilesystemMessage.SequenceNumber (m : FilesystemMessage) : Nat := wrap (m.ID + 1)

/-- `FilesystemMessage.Flags`. -/
def FilesystemMessage.Flags (m : FilesystemMessage) : Nat := m.flags

/-- `FilesystemMailbox.Name`. -/
def FilesystemMailbox.Name (m : FilesystemMailbox) : String := m.path

/-- `FilesystemMailbox.NextUID`: `uint32(len(m.messages) + 1)`. -/
def FilesystemMailbox.NextUID (m : FilesystemMailbox) : Nat := wrap (m.messages.length + 1)

/-- `FilesystemMailbox.LastUID`: `uint32(len(m.messages))`. -/
def FilesystemMailbox.LastUID (m : FilesystemMailbox) : Nat := wrap m.messages.length

/-- `FilesystemMailbox.Messages`: `uint32(len(m.messages))`. -/
def FilesystemMailbox.Messages (m : FilesystemMailbox) : Nat := wrap m.messages.length

/-- `FilesystemMailbox.MessageBySequenceNumber`: nil above the message count,
otherwise the element at index `seqno - 1`, the subtraction being a `uint32`
one; an index outside the slice is a run-time panic. -/
def FilesystemMailbox.MessageBySequenceNumber (m : FilesystemMailbox) (seqno : Nat) :
    Outcome Message :=
  if seqno > wrap m.messages.length then .ok none
  else
    match m.messages[wrap (seqno + 4294967295)]? with
    | some msg => .ok (some msg)
    | none => .panic

/-- `FilesystemMailbox.MessageByUID`: the same body as `MessageBySequenceNumber`. -/
def FilesystemMailbox.MessageByUID (m : FilesystemMailbox) (uidno : Nat) :
    Outcome Message :=
  if uidno > wrap m.messages.length then .ok none
  else
    match m.messages[wrap (uidno + 4294967295)]? with
    | some msg => .ok (some msg)
    | none => .panic

/-! ## Resolvers (`filesystem_mailstore.go`, lines 209-337) -/

/-- The loop `for seqNo := start; seqNo <= end; seqNo++` of
`MessageSetBySequenceNumber` (lines 331-333), appending
`m.MessageBySequenceNumber(seqNo)`, nil or not, to `msgs`. -/
def seqRangeLoop (m : FilesystemMailbox) :
    Nat → Nat → Nat → List Message → Outcome (List Message)
  | 0, _, _, _ => .hang
  | fuel + 1, seqNo, end_, msgs =>
    if seqNo ≤ end_ then
      (m.MessageBySequenceNumber seqNo).bind fun msg =>
        seqRangeLoop m fuel (wrap (seqNo + 1)) end_ (msgs ++ [msg])
    else .ok msgs

/-- The loop `for _, msgRange := range set` of `MessageSetBySequenceNumber`
(lines 287-334); `msgs` is the slice built so far. -/
def seqSetLoop (fuel : Nat) (m : FilesystemMailbox) :
    List SequenceRange → List Message → Outcome (List Message)
  | [], msgs => .ok msgs
  | msgRange :: rest, msgs =>
    if msgRange.Min.Last then
      (m.MessageBySequenceNumber m.Messages).bind fun msg =>
        seqSetLoop fuel m rest (msgs ++ [msg])
    else
      let start := msgRange.Min.Value.1
      if msgRange.Min.Value.2 then .ok msgs
      else if msgRange.Max.Nil then
        let sequenceNo := msgRange.Min.Value.1
        if msgRange.Min.Value.2 then .ok msgs
        else
          (m.MessageBySequenceNumber sequenceNo).bind fun msg =>
            match msg with
            | some x => seqSetLoop fuel m rest (msgs ++ [some x])
            | none => seqSetLoop fuel m rest msgs
      else
        let end_ := if msgRange.Max.Last then wrap m.messages.length
                    else msgRange.Max.Value.1
        (seqRangeLoop m fuel start end_ msgs).bind fun msgs1 =>
          seqSetLoop fuel m rest msgs1

/-- `FilesystemMailbox.MessageSetBySequenceNumber` (lines 278-337). Each range
loop may evaluate its condition `fuel` times. -/
def FilesystemMailbox.MessageSetBySequenceNumber (fuel : Nat) (m : FilesystemMailbox)
    (set : SequenceSet) : Outcome (List Message) :=
  if m.Messages = 0 then .ok []
  else seqSetLoop fuel m set []

/-- The body-less loop `for index := uint32(start); index <= end; index++`
of `MessageSetByUID` (lines 269-270). -/
def uidIndexLoop : Nat → Nat → Nat → Outcome Unit
  | 0, _, _ => .hang
  | fuel + 1, index, end_ =>
    if index ≤ end_ then uidIndexLoop fuel (wrap (index + 1)) end_
    else .ok ()

/-- The loop `for _, msg := range m.messages` of `MessageSetByUID`
(lines 263-268): the messages whose UID lies in `[start, end]` are appended. -/
def uidFilterLoop (start end_ : Nat) : List FilesystemMessage → List Message → List Message
  | [], msgs => msgs
  | msg :: rest, msgs =>
    let uid := msg.UID
    if uid ≥ start ∧ uid ≤ end_ then uidFilterLoop start end_ rest (msgs ++ [some msg])
    else uidFilterLoop start end_ rest msgs

/-- The loop `for _, msgRange := range set` of `MessageSetByUID`
(lines 219-271); `msgs` is the slice built so far. -/
def uidSetLoop (fuel : Nat) (m : FilesystemMailbox) :
    List SequenceRange → List Message → Outcome (List Message)
  | [], msgs => .ok msgs
  | msgRange :: rest, msgs =>
    if msgRange.Min.Last then
      (m.MessageByUID m.LastUID).bind fun msg =>
        uidSetLoop fuel m rest (msgs ++ [msg])
    else
      let start := msgRange.Min.Value.1
      if msgRange.Min.Value.2 then .ok msgs
      else if msgRange.Max.Nil then
        let uid := msgRange.Min.Value.1
        (m.MessageByUID uid).bind fun msg =>
          if msgRange.Min.Value.2 then .ok msgs
          else
            match msg with
            | some x => uidSetLoop fuel m rest (msgs ++ [some x])
            | none => uidSetLoop fuel m rest msgs
      else
        let end_ := if msgRange.Max.Last then m.LastUID
                    else msgRange.Max.Value.1
        let msgs1 := uidFilterLoop start end_ m.messages msgs
        (uidIndexLoop fuel start end_).bind fun _ =>
          uidSetLoop fuel m rest msgs1

/-- `FilesystemMailbox.MessageSetByUID` (lines 211-274). Each range loop may
evaluate its condition `fuel` times. -/
def FilesystemMailbox.MessageSetByUID (fuel : Nat) (m : FilesystemMailbox)
    (set : SequenceSet) : Outcome (List Message) :=
  if m.Messages = 0 then .ok []
  else uidSetLoop fuel m set []

/-! ## Flags (package `types`) and the counters (lines 169-191) -/

/-- Modelled from the spec: `types.FlagSeen`. The spec (section 3) makes the
flags the enumeration Seen, Answered, Flagged, Deleted, Draft, Recent held as a
bitmask; the bits are taken in that order. -/
def FlagSeen : Nat := 1

/-- Modelled from the spec: `types.FlagAnswered`. -/
def FlagAnswered : Nat := 2

/-- Modelled from the spec: `types.FlagFlagged`. -/
def FlagFlagged : Nat := 4

/-- Modelled from the spec: `types.FlagDeleted`. -/
def FlagDeleted : Nat := 8

/-- Modelled from the spec: `types.FlagDraft`. -/
def FlagDraft : Nat := 16

/-- Modelled from the spec: `types.FlagRecent`. -/
def FlagRecent : Nat := 32

/-- Modelled from the spec: `Flags.HasFlags`, whether every flag of `y` is set
in the bitmask `f`. -/
def HasFlags (f y : Nat) : Bool := (f &&& y) == y

/-- The loop of `FilesystemMailbox.Recent` (lines 173-177), `count` a `uint32`. -/
def recentLoop : List FilesystemMessage → Nat → Nat
  | [], count => count
  | message :: rest, count =>
    if HasFlags message.Flags FlagRecent then recentLoop rest (wrap (count + 1))
    else recentLoop rest count

/-- `FilesystemMailbox.Recent` (lines 171-179). -/
def FilesystemMailbox.Recent (m : FilesystemMailbox) : Nat := recentLoop m.messages 0

/-- The loop of `FilesystemMailbox.Unseen` (lines 185-189), `count` a `uint32`. -/
def unseenLoop : List FilesystemMessage → Nat → Nat
  | [], count => count
  | message :: rest, count =>
    if !HasFlags message.Flags FlagSeen then unseenLoop rest (wrap (count + 1))
    else unseenLoop rest count

/-- `FilesystemMailbox.Unseen` (lines 183-191). -/
def FilesystemMailbox.Unseen (m : FilesystemMailbox) : Nat := unseenLoop m.messages 0

/-! ## Mutators of the read-only store (lines 339-351, 413-444)

A method with a pointer receiver is given the state it may write, the mailbox
or the message, and returns that state after the call beside its results. -/

/-- `FilesystemMailbox.NewMessage`: the mailbox after the call and the new
message, the zero value of `FilesystemMessage`. -/
def FilesystemMailbox.NewMessage (m : FilesystemMailbox) :
    FilesystemMailbox × FilesystemMessage :=
  (m, ⟨"", none, 0, 0⟩)

/-- `FilesystemMailbox.DeleteFlaggedMessages`: the mailbox after the call, the
deleted messages (the nil slice) and the error (nil). -/
def FilesystemMailbox.DeleteFlaggedMessages (m : FilesystemMailbox) :
    FilesystemMailbox × List Message × Option String :=
  (m, [], none)

/-- `FilesystemMessage.OverwriteFlags`: the assignment is commented out; the
message is returned as it is. -/
def FilesystemMessage.OverwriteFlags (m : FilesystemMessage) (_newFlags : Nat) :
    FilesystemMessage := m

/-- `FilesystemMessage.AddFlags`: the assignment is commented out. -/
def FilesystemMessage.AddFlags (m : FilesystemMessage) (_newFlags : Nat) :
    FilesystemMessage := m

/-- `FilesystemMessage.RemoveFlags`: the assignment is commented out. -/
def FilesystemMessage.RemoveFlags (m : FilesystemMessage) (_newFlags : Nat) :
    FilesystemMessage := m

/-- `FilesystemMessage.SetHeaders`; a `mail.Header` maps a key to its values. -/
def FilesystemMessage.SetHeaders (m : FilesystemMessage)
    (_newHeader : List (String × List String)) : FilesystemMessage := m

/-- `FilesystemMessage.SetBody`. -/
def FilesystemMessage.SetBody (m : FilesystemMessage) (_newBody : String) :
    FilesystemMessage := m

/-- `FilesystemMessage.Save`: the message and an error, always. -/
def FilesystemMessage.Save (m : FilesystemMessage) : FilesystemMessage × Option String :=
  (m, some "This mail store is read-only")

/-! ## The mailstore and its user (lines 15-29, 49-145) -/

/-- The struct `FilesystemUser`. The pointer `mailstore` is nil (`none`) or
points to the store; of the store it points to, the mailboxes are kept. -/
structure FilesystemUser where
  username : String
  password : String
  authenticated : Bool
  mailstore : Option (List FilesystemMailbox)
deriving DecidableEq, Repr

/-- The struct `FilesystemMailstore`. -/
structure FilesystemMailstore where
  dirname : String
  users : List FilesystemUser
  mailboxes : List FilesystemMailbox
deriving DecidableEq, Repr

/-- One call of the function given to `filepath.Walk`: the path, the file
information and whether the walk reports an error for this entry. -/
structure WalkEntry where
  path : String
  info : FileInfo
  err : Bool
deriving DecidableEq, Repr

/-- The variables the walk function writes: `ms.mailboxes` and the three
`uint32` counters `mbID`, `emID`, `temID`. -/
structure WalkState where
  mailboxes : List FilesystemMailbox
  mbID : Nat
  emID : Nat
  temID : Nat
deriving DecidableEq, Repr

/-- The calls of the walk function (lines 78-106) over the entries in walk
order. `ok none` stands for an error returned to `filepath.Walk`, which ends the
walk; indexing `ms.mailboxes[mbID-1]` outside the slice is a panic. -/
def walkLoop : List WalkEntry → WalkState → Outcome (Option WalkState)
  | [], st => .ok (some st)
  | e :: rest, st =>
    if e.err then .ok none
    else if e.info.isDir then
      let mb : FilesystemMailbox := ⟨e.path, e.info, st.mbID, []⟩
      walkLoop rest
        { mailboxes := st.mailboxes ++ [mb], mbID := wrap (st.mbID + 1), emID := 0,
          temID := st.temID }
    else
      match st.mailboxes[wrap (st.mbID + 4294967295)]? with
      | none => .panic
      | some mb =>
        let ma : FilesystemMessage := ⟨e.path, some e.info, st.emID, 1⟩
        walkLoop rest
          { mailboxes := st.mailboxes.set (wrap (st.mbID + 4294967295))
              { mb with messages := mb.messages ++ [ma] },
            mbID := st.mbID, emID := wrap (st.emID + 1), temID := wrap (st.temID + 1) }

/-- `NewFilesystemMailstore` (lines 51-112). `chdirErr` tells whether
`os.Chdir` failed and `walk` lists what `filepath.Walk(".")` visits; `ok none`
is the nil store. -/
def NewFilesystemMailstore (dirname : String) (chdirErr : Bool) (walk : List WalkEntry) :
    Outcome (Option FilesystemMailstore) :=
  if chdirErr then .ok none
  else
    let user : FilesystemUser := ⟨"username", "password", false, none⟩
    (walkLoop walk ⟨[], 0, 0, 0⟩).bind fun r =>
      match r with
      | none => .ok none
      | some st => .ok (some ⟨dirname, [user], st.mailboxes⟩)

/-- `FilesystemMailstore.Authenticate` (lines 115-125): the store after the
call, the user returned and the error. `d.users[0]` on an empty slice is a
panic. -/
def FilesystemMailstore.Authenticate (d : FilesystemMailstore) (username password : String) :
    Outcome (FilesystemMailstore × FilesystemUser × Option String) :=
  match d.users[0]? with
  | none => .panic
  | some u0 =>
    if username ≠ u0.username then
      .ok (d, ⟨"", "", false, none⟩, some "Invalid username. Use \x27username\x27")
    else if password ≠ u0.password then
      .ok (d, ⟨"", "", false, none⟩, some "Invalid password. Use \x27password\x27")
    else
      let u1 : FilesystemUser := { u0 with authenticated := true, mailstore := some d.mailboxes }
      .ok ({ d with users := d.users.set 0 u1 }, u1, none)

/-- `FilesystemUser.Mailboxes` (lines 128-135); a nil `mailstore` is a panic. -/
def FilesystemUser.Mailboxes (u : FilesystemUser) : Outcome (List FilesystemMailbox) :=
  match u.mailstore with
  | none => .panic
  | some original => .ok original

end Mailstore

/-! ## Sample values -/

namespace Mailstore

/-- A message file as `NewFilesystemMailstore` records it: `flags` is
`types.Flags(1)` and `ID` is the position in the mailbox. -/
def sampleMessage (i : Nat) : FilesystemMessage :=
  ⟨"INBOX/mail", some ⟨false, 120, 0⟩, i, 1⟩

/-- A mailbox without messages. -/
def emptyInbox : FilesystemMailbox := ⟨"INBOX", ⟨true, 0, 0⟩, 0, []⟩

/-- A second mailbox without messages. -/
def emptyDrafts : FilesystemMailbox := ⟨"Drafts", ⟨true, 0, 0⟩, 1, []⟩

/-- A mailbox of one message. -/
def inbox1 : FilesystemMailbox := ⟨"INBOX", ⟨true, 0, 0⟩, 0, [sampleMessage 0]⟩

/-- A mailbox of two messages. -/
def inbox2 : FilesystemMailbox :=
  ⟨"INBOX", ⟨true, 0, 0⟩, 0, [sampleMessage 0, sampleMessage 1]⟩

/-- A mailbox whose messages have the UIDs 1, 3 and 4. -/
def inboxGap : FilesystemMailbox :=
  ⟨"INBOX", ⟨true, 0, 0⟩, 0, [sampleMessage 0, sampleMessage 2, sampleMessage 3]⟩

/-- A mailbox of three messages. -/
def inbox3 : FilesystemMailbox :=
  ⟨"INBOX", ⟨true, 0, 0⟩, 0, [sampleMessage 0, sampleMessage 1, sampleMessage 2]⟩

/-- A mailbox of four messages with the flags none, Seen, Recent, and Seen
with Recent. -/
def inboxFlags : FilesystemMailbox :=
  ⟨"INBOX", ⟨true, 0, 0⟩, 0,
    [⟨"INBOX/a", some ⟨false, 10, 0⟩, 0, 0⟩, ⟨"INBOX/b", some ⟨false, 10, 0⟩, 1, 1⟩,
      ⟨"INBOX/c", some ⟨false, 10, 0⟩, 2, 32⟩, ⟨"INBOX/d", some ⟨false, 10, 0⟩, 3, 33⟩]⟩

/-- A store as `NewFilesystemMailstore` leaves it, with one mailbox. -/
def sampleStore : FilesystemMailstore :=
  ⟨".", [⟨"username", "password", false, none⟩], [inbox2]⟩

/-- The entry of a directory in a walk. -/
def dirEntry (path : String) : WalkEntry := ⟨path, ⟨true, 0, 0⟩, false⟩

/-- The entry of a regular file in a walk. -/
def fileEntry (path : String) : WalkEntry := ⟨path, ⟨false, 120, 0⟩, false⟩

/-- The walk of a root with the directories `INBOX` (two files) and `Sent` (one
file). -/
def sampleWalk : List WalkEntry :=
  [dirEntry ".", dirEntry "INBOX", fileEntry "INBOX/1", fileEntry "INBOX/2",
    dirEntry "Sent", fileEntry "Sent/1"]

/-- The walk of a root that holds the directory `a`, with the file `a/x`, and
the file `b.txt`: `filepath.Walk` visits `.`, `a`, `a/x`, `b.txt`. -/
def strayFileWalk : List WalkEntry :=
  [dirEntry ".", dirEntry "a", fileEntry "a/x", fileEntry "b.txt"]

/-- What the walk keeps true after `k` entries, the first of them a directory:
the mailbox written last is `ms.mailboxes[mbID-1]`, `emID` is the number of its
messages, and in every mailbox the message at index `i` has the ID `i`. -/
def WalkInv (k : Nat) (st : WalkState) : Prop :=
  ∃ init cur, st.mailboxes = init ++ [cur] ∧ st.mbID = init.length + 1 ∧
    cur.messages.length = st.emID ∧ init.length + 1 ≤ k ∧
    ∀ mb ∈ st.mailboxes,
      mb.messages.map FilesystemMessage.ID = List.range mb.messages.length ∧
      mb.messages.length ≤ k

end Mailstore

/-! ## The LIST handler (`conn/command_list.go`) -/

namespace Imap

open Mailstore

/-- Modelled from the spec: the session states of section 4.1; the type is
declared outside the sources. -/
inductive ConnState where
  | NotAuthenticated
  | Authenticated
  | Selected
deriving DecidableEq, Repr

/-- Modelled from the spec: the `User` a session holds (section 4.4), seen
through `Mailboxes()`, the ordered sequence of its mailboxes. -/
structure User where
  Mailboxes : List FilesystemMailbox
deriving DecidableEq, Repr

/-- Modelled from the spec: a connection, as far as `cmdList` reads and writes
it: the session state, the user (nil before login) and the response lines
written so far, oldest first. -/
structure Conn where
  State : ConnState
  User : Option User
  written : List String
deriving DecidableEq, Repr

/-- Modelled from the spec: the parsed command line (section 4.2), a tag and an
argument list; the type `commandArgs` is declared outside the sources. -/
structure commandArgs where
  id : String
  args : List String
deriving DecidableEq, Repr

/-- Modelled from the spec: `commandArgs.ID()`, the tag of the command. -/
def commandArgs.ID (a : commandArgs) : String := a.id

/-- Modelled from the spec: `commandArgs.Arg(i)`, the argument at position `i`,
empty when there is none. -/
def commandArgs.Arg (a : commandArgs) (i : Nat) : String := a.args.getD i ""

/-- Modelled from the spec: `Conn.writeResponse` (section 4.5) writes the line
`<tag> <text>`, and `* <text>` for the empty tag. -/
def Conn.writeResponse (c : Conn) (seq : String) (command : String) : Conn :=
  let seq1 := if seq = "" then "*" else seq
  { c with written := c.written ++ [seq1 ++ " " ++ command] }

/-- Modelled from the spec: `Conn.assertAuthenticated` (sections 4.1, 4.2): a
session below the Authenticated state gets a tagged negative completion and
`false`; otherwise nothing is written and the answer is `true`. -/
def Conn.assertAuthenticated (c : Conn) (seq : String) : Bool × Conn :=
  if c.State = ConnState.Authenticated ∨ c.State = ConnState.Selected then (true, c)
  else (false, c.writeResponse seq "NO not authenticated")

/-- The part of Go package `regexp` that `cmdList` calls: `Compile`, which may
refuse a pattern, and `MatchString`. -/
structure RegexpEngine where
  Regexp : Type
  Compile : String → Option Regexp
  MatchString : Regexp → String → Bool

/-- `strings.Replace(s, old, new, -1)` for an `old` of one character: every
occurrence is replaced. -/
def replaceAll (s : String) (old : Char) (new : String) : String :=
  String.mk (s.toList.flatMap fun ch => if ch = old then new.toList else [ch])

/-- The text handed to `regexp.Compile` (line 21): `^reference+mailboxname$`
with `*` rewritten to `.*` and then `%` to `[^/]*`. -/
def listPattern (reference mailboxname : String) : String :=
  replaceAll (replaceAll ("^" ++ reference ++ mailboxname ++ "$") '*' ".*") '%' "[^/]*"

/-- The loop `for _, mailbox := range c.User.Mailboxes()` (lines 23-27). -/
def listLoop (RE : RegexpEngine) (re : RE.Regexp) : List FilesystemMailbox → Conn → Conn
  | [], c => c
  | mailbox :: rest, c =>
    if RE.MatchString re mailbox.Name then
      listLoop RE re rest (c.writeResponse "" ("LIST () \"/\" \"" ++ mailbox.Name ++ "\""))
    else listLoop RE re rest c

/-- The handler `cmdList` (lines 10-46). Calling `Mailboxes()` on a nil user is a
run-time panic. -/
def cmdList (RE : RegexpEngine) (args : commandArgs) (c : Conn) : Outcome Conn :=
  match c.assertAuthenticated args.ID with
  | (false, c1) => .ok c1
  | (true, c1) =>
    let reference := args.Arg 0
    let mailboxname := args.Arg 1
    if mailboxname = "" then
      .ok ((c1.writeResponse "" "LIST (\\Noselect) \"/\" \"\"").writeResponse args.ID
        "OK LIST completed")
    else
      match RE.Compile (listPattern reference mailboxname) with
      | none => .ok c1
      | some re =>
        match c1.User with
        | none => .panic
        | some user =>
          .ok ((listLoop RE re user.Mailboxes c1).writeResponse args.ID "OK LIST completed")

/-- Whether the groups of a pattern are closed: `depth` counts the open ones. -/
def groupsClosed : List Char → Nat → Bool
  | [], depth => depth == 0
  | '(' :: rest, depth => groupsClosed rest (depth + 1)
  | ')' :: rest, depth => if depth = 0 then false else groupsClosed rest (depth - 1)
  | _ :: rest, depth => groupsClosed rest depth

/-- An engine for patterns without operators other than parentheses, where it
agrees with `regexp.Compile`: `Compile` refuses a pattern with an unclosed group
(`missing closing )`), and `MatchString` compares the name, between `^` and `$`,
with the pattern. On patterns with other operators it does not stand for Go. -/
def literalEngine : RegexpEngine where
  Regexp := String
  Compile := fun s => if groupsClosed s.toList 0 then some s else none
  MatchString := fun re name => re == "^" ++ name ++ "$"

/-- A session after login, with two mailboxes and nothing written yet. -/
def sampleConn : Conn :=
  ⟨ConnState.Authenticated, some ⟨[inbox2, emptyDrafts]⟩, []⟩

/-! ## The CAPABILITY handler (`command_capability.go`) -/

/-- Modelled from the spec: `commandArgs.Id()`, the tag of the command, as the
root package spells it. -/
def commandArgs.Id (a : commandArgs) : String := a.id

/-- The handler `cmdCapability` (lines 4-7). -/
def cmdCapability (args : commandArgs) (c : Conn) : Conn :=
  (c.writeResponse "" "CAPABILITY IMAP4rev1 AUTH=PLAIN").writeResponse args.Id
    "OK CAPABILITY completed"

/-! ## A fragment of Go regular expressions

The patterns `^...$` whose body is made of `.*`, `[^/]*`, `.` and characters
that stand for themselves, with the meaning package `regexp` gives them. -/

/-- The pieces of a pattern of the fragment. -/
inductive RegexpItem where
  | lit : Char → RegexpItem
  | anyChar : RegexpItem
  | anyStar : RegexpItem
  | notSlashStar : RegexpItem
deriving DecidableEq, Repr

/-- The characters that are operators of a Go regular expression. -/
def isOperator (ch : Char) : Bool :=
  ch ∈ ['\\', '.', '+', '*', '?', '(', ')', '|', '[', ']', '\x7b', '\x7d', '^', '$']

/-- Reading of the body of a pattern up to the closing `$`; `none` outside the
fragment. -/
def readItems : List Char → Option (List RegexpItem)
  | [] => none
  | ['$'] => some []
  | '.' :: '*' :: rest => (readItems rest).map fun items => RegexpItem.anyStar :: items
  | '[' :: '^' :: '/' :: ']' :: '*' :: rest =>
    (readItems rest).map fun items => RegexpItem.notSlashStar :: items
  | '.' :: rest => (readItems rest).map fun items => RegexpItem.anyChar :: items
  | ch :: rest =>
    if isOperator ch then none
    else (readItems rest).map fun items => RegexpItem.lit ch :: items

/-- Whether the items match the whole of a text: `.` is any character but the
line feed, `.*` any run of such characters, `[^/]*` any run without `/`. -/
def matchItems : List RegexpItem → List Char → Bool
  | [], text => text.isEmpty
  | .lit ch :: items, text =>
    match text with
    | [] => false
    | x :: xs => x == ch && matchItems items xs
  | .anyChar :: items, text =>
    match text with
    | [] => false
    | x :: xs => x != '\n' && matchItems items xs
  | .anyStar :: items, text =>
    (List.range (text.length + 1)).any fun k =>
      (text.take k).all (fun x => x != '\n') && matchItems items (text.drop k)
  | .notSlashStar :: items, text =>
    (List.range (text.length + 1)).any fun k =>
      (text.take k).all (fun x => x != '/') && matchItems items (text.drop k)

/-- The engine of the fragment: `Compile` accepts the patterns `^...$` of the
fragment and `MatchString` matches the whole name against the body. It refuses
the patterns outside the fragment, also those `regexp.Compile` accepts, and
stands for Go on the fragment only. -/
def fragmentEngine : RegexpEngine where
  Regexp := List RegexpItem
  Compile := fun s =>
    match s.toList with
    | '^' :: body => readItems body
    | _ => none
  MatchString := fun re name => matchItems re name.toList

/-- A mailbox without messages whose name is `name`. -/
def emptyMailbox (name : String) : FilesystemMailbox := ⟨name, ⟨true, 0, 0⟩, 0, []⟩

/-- A session after login whose user has the mailboxes `a.c`, `abc` and `a/c`. -/
def dotConn : Conn :=
  ⟨ConnState.Authenticated,
    some ⟨[emptyMailbox "a.c", emptyMailbox "abc", emptyMailbox "a/c"]⟩, []⟩

end Imap

/-! ## Lemmas on the embedding -/

namespace Mailstore

theorem wrap_of_lt {n : Nat} (h : n < 4294967296) : wrap n = n := by
  unfold wrap; exact Nat.mod_eq_of_lt h

theorem wrap_lt (n : Nat) : wrap n < 4294967296 := by
  unfold wrap; exact Nat.mod_lt _ (by decide)

theorem wrap_pred {n : Nat} (h1 : 1 ≤ n) (h2 : n < 4294967296) :
    wrap (n + 4294967295) = n - 1 := by
  unfold wrap; omega

@[simp] theorem Outcome.bind_ok {α β : Type} (a : α) (f : α → Outcome β) :
    (Outcome.ok a).bind f = f a := rfl

@[simp] theorem Outcome.bind_panic {α β : Type} (f : α → Outcome β) :
    (Outcome.panic : Outcome α).bind f = .panic := rfl

@[simp] theorem Outcome.bind_hang {α β : Type} (f : α → Outcome β) :
    (Outcome.hang : Outcome α).bind f = .hang := rfl

theorem Outcome.bind_assoc {α β γ : Type} (x : Outcome α) (f : α → Outcome β)
    (g : β → Outcome γ) : (x.bind f).bind g = x.bind fun a => (f a).bind g := by
  cases x <;> rfl

theorem Outcome.bind_pure {α : Type} (x : Outcome α) : x.bind Outcome.ok = x := by
  cases x <;> rfl

/-- A sequence number from 1 on is answered with the element at index `n - 1`,
absent when there is none. -/
theorem MessageBySequenceNumber_pos (m : FilesystemMailbox) (n : Nat)
    (hlen : m.messages.length < 4294967296) (h1 : 1 ≤ n) (h2 : n < 4294967296) :
    m.MessageBySequenceNumber n = .ok (m.messages[n - 1]?) := by
  unfold FilesystemMailbox.MessageBySequenceNumber
  rw [wrap_of_lt hlen, wrap_pred h1 h2]
  by_cases h : n > m.messages.length
  · rw [if_pos h, List.getElem?_eq_none (by omega)]
  · rw [if_neg h]
    have hlt : n - 1 < m.messages.length := by omega
    rw [List.getElem?_eq_getElem hlt]

theorem MessageByUID_eq (m : FilesystemMailbox) (n : Nat) :
    m.MessageByUID n = m.MessageBySequenceNumber n := rfl

theorem MessageBySequenceNumber_zero (m : FilesystemMailbox)
    (hlen : m.messages.length < 4294967296) :
    m.MessageBySequenceNumber 0 = .panic := by
  unfold FilesystemMailbox.MessageBySequenceNumber
  rw [if_neg (by omega)]
  have : wrap (0 + 4294967295) = 4294967295 := by decide
  rw [this, List.getElem?_eq_none (by omega)]

/-- The range loop run from `a` for `k` sequence numbers, none of them above
`2^32 - 2`: it leaves the loop and has appended one entry per number. -/
theorem seqRangeLoop_run (m : FilesystemMailbox) (hlen : m.messages.length < 4294967296) :
    ∀ (k fuel a b : Nat) (msgs : List Message), 1 ≤ a → b + 1 = a + k → b < 4294967295 →
      k < fuel →
      seqRangeLoop m fuel a b msgs
        = .ok (msgs ++ (List.range' a k).map fun n => m.messages[n - 1]?) := by
  intro k
  induction k with
  | zero =>
    intro fuel a b msgs _ hb _ hf
    obtain ⟨f, rfl⟩ : ∃ f, fuel = f + 1 := ⟨fuel - 1, by omega⟩
    simp only [seqRangeLoop]
    rw [if_neg (by omega)]
    simp
  | succ k ih =>
    intro fuel a b msgs ha hb hmax hf
    obtain ⟨f, rfl⟩ : ∃ f, fuel = f + 1 := ⟨fuel - 1, by omega⟩
    simp only [seqRangeLoop]
    rw [if_pos (by omega), MessageBySequenceNumber_pos m a hlen ha (by omega),
      Outcome.bind_ok, wrap_of_lt (by omega),
      ih f (a + 1) b _ (by omega) (by omega) hmax (by omega)]
    simp [List.range']

/-- A range loop whose start is above its end appends nothing. -/
theorem seqRangeLoop_empty (m : FilesystemMailbox) (fuel a b : Nat) (msgs : List Message)
    (hab : b < a) (hf : 0 < fuel) : seqRangeLoop m fuel a b msgs = .ok msgs := by
  obtain ⟨f, rfl⟩ : ∃ f, fuel = f + 1 := ⟨fuel - 1, by omega⟩
  simp only [seqRangeLoop]
  rw [if_neg (by omega)]

/-- The entries for the sequence numbers `a, a+1, ..` inside the mailbox are its
messages from position `a` on. -/
theorem map_getElem?_range' (l : List FilesystemMessage) (a k : Nat) (ha : 1 ≤ a)
    (hk : a + k ≤ l.length + 1) :
    ((List.range' a k).map fun n => l[n - 1]?) = ((l.drop (a - 1)).take k).map some := by
  apply List.ext_getElem?
  intro i
  by_cases hi : i < k
  · have h1 : a - 1 + i < l.length := by omega
    have h2 : a + i - 1 = a - 1 + i := by omega
    simp [List.getElem?_map, List.getElem?_range', hi, List.getElem?_take, List.getElem?_drop,
      List.getElem?_eq_getElem h1, h2]
  · have h3 : k ≤ i := by omega
    simp [List.getElem?_map, List.getElem?_range', hi, List.getElem?_take, List.getElem?_drop, h3]

theorem uidIndexLoop_run :
    ∀ (k fuel a b : Nat), b + 1 = a + k → b < 4294967295 → k < fuel →
      uidIndexLoop fuel a b = .ok () := by
  intro k
  induction k with
  | zero =>
    intro fuel a b hb _ hf
    obtain ⟨f, rfl⟩ : ∃ f, fuel = f + 1 := ⟨fuel - 1, by omega⟩
    simp only [uidIndexLoop]
    rw [if_neg (by omega)]
  | succ k ih =>
    intro fuel a b hb hmax hf
    obtain ⟨f, rfl⟩ : ∃ f, fuel = f + 1 := ⟨fuel - 1, by omega⟩
    simp only [uidIndexLoop]
    rw [if_pos (by omega), wrap_of_lt (by omega), ih f (a + 1) b (by omega) hmax (by omega)]

theorem uidIndexLoop_empty (fuel a b : Nat) (hab : b < a) (hf : 0 < fuel) :
    uidIndexLoop fuel a b = .ok () := by
  obtain ⟨f, rfl⟩ : ∃ f, fuel = f + 1 := ⟨fuel - 1, by omega⟩
  simp only [uidIndexLoop]
  rw [if_neg (by omega)]

/-- With the largest `uint32` as its end the counting loop never leaves. -/
theorem uidIndexLoop_max : ∀ (fuel index : Nat), index < 4294967296 →
    uidIndexLoop fuel index 4294967295 = .hang := by
  intro fuel
  induction fuel with
  | zero => intro index _; rfl
  | succ f ih =>
    intro index h
    simp only [uidIndexLoop]
    rw [if_pos (by omega)]
    exact ih _ (wrap_lt _)

theorem uidFilterLoop_eq (start end_ : Nat) :
    ∀ (l : List FilesystemMessage) (msgs : List Message),
      uidFilterLoop start end_ l msgs
        = msgs ++ (l.filter fun x => decide (start ≤ x.UID ∧ x.UID ≤ end_)).map some := by
  intro l
  induction l with
  | nil => intro msgs; simp [uidFilterLoop]
  | cons x rest ih =>
    intro msgs
    simp only [uidFilterLoop]
    by_cases h : x.UID ≥ start ∧ x.UID ≤ end_
    · rw [if_pos h, ih, List.filter_cons_of_pos (by simpa using h)]
      simp
    · rw [if_neg h, ih, List.filter_cons_of_neg (by simpa using h)]

/-- The slice built before a range loop stays in front of what the loop appends. -/
theorem seqRangeLoop_acc (m : FilesystemMailbox) :
    ∀ (fuel a b : Nat) (msgs : List Message),
      seqRangeLoop m fuel a b msgs
        = (seqRangeLoop m fuel a b []).bind fun l => .ok (msgs ++ l) := by
  intro fuel
  induction fuel with
  | zero => intro a b msgs; rfl
  | succ f ih =>
    intro a b msgs
    simp only [seqRangeLoop]
    by_cases h : a ≤ b
    · rw [if_pos h, if_pos h]
      cases hm : m.MessageBySequenceNumber a with
      | ok msg =>
        simp only [Outcome.bind_ok]
        rw [ih _ _ (msgs ++ [msg]), ih _ _ ([] ++ [msg]), Outcome.bind_assoc]
        congr 1
        funext l
        simp
      | panic => rfl
      | hang => rfl
    · rw [if_neg h, if_neg h]
      simp

/-- The slice built before the ranges of a set are resolved stays in front of
what they append (sequence-number mode). -/
theorem seqSetLoop_acc (fuel : Nat) (m : FilesystemMailbox) :
    ∀ (set : List SequenceRange) (msgs : List Message),
      seqSetLoop fuel m set msgs
        = (seqSetLoop fuel m set []).bind fun l => .ok (msgs ++ l) := by
  intro set
  induction set with
  | nil => intro msgs; simp [seqSetLoop]
  | cons r rest ih =>
    intro msgs
    simp only [seqSetLoop]
    by_cases hl : r.Min.Last = true
    · simp only [if_pos hl]
      cases hm : m.MessageBySequenceNumber m.Messages with
      | ok msg =>
        simp only [Outcome.bind_ok]
        rw [ih (msgs ++ [msg]), ih ([] ++ [msg]), Outcome.bind_assoc]
        congr 1
        funext l
        simp
      | panic => rfl
      | hang => rfl
    · simp only [if_neg hl]
      by_cases he : r.Min.Value.2 = true
      · simp only [if_pos he]; simp
      · simp only [if_neg he]
        by_cases hn : r.Max.Nil = true
        · simp only [if_pos hn]
          cases hm : m.MessageBySequenceNumber r.Min.Value.1 with
          | ok msg =>
            cases msg with
            | none => simp only [Outcome.bind_ok]; exact ih msgs
            | some x =>
              simp only [Outcome.bind_ok]
              rw [ih (msgs ++ [some x]), ih ([] ++ [some x]), Outcome.bind_assoc]
              congr 1
              funext l
              simp
          | panic => rfl
          | hang => rfl
        · simp only [if_neg hn]
          rw [seqRangeLoop_acc m fuel _ _ msgs, Outcome.bind_assoc, Outcome.bind_assoc]
          congr 1
          funext l
          simp only [Outcome.bind_ok]
          rw [ih (msgs ++ l), ih l, Outcome.bind_assoc]
          congr 1
          funext l2
          simp

/-- The slice built before the ranges of a set are resolved stays in front of
what they append (UID mode). -/
theorem uidSetLoop_acc (fuel : Nat) (m : FilesystemMailbox) :
    ∀ (set : List SequenceRange) (msgs : List Message),
      uidSetLoop fuel m set msgs
        = (uidSetLoop fuel m set []).bind fun l => .ok (msgs ++ l) := by
  intro set
  induction set with
  | nil => intro msgs; simp [uidSetLoop]
  | cons r rest ih =>
    intro msgs
    simp only [uidSetLoop]
    by_cases hl : r.Min.Last = true
    · simp only [if_pos hl]
      cases hm : m.MessageByUID m.LastUID with
      | ok msg =>
        simp only [Outcome.bind_ok]
        rw [ih (msgs ++ [msg]), ih ([] ++ [msg]), Outcome.bind_assoc]
        congr 1
        funext l
        simp
      | panic => rfl
      | hang => rfl
    · simp only [if_neg hl]
      by_cases he : r.Min.Value.2 = true
      · simp only [if_pos he]; simp
      · simp only [if_neg he]
        by_cases hn : r.Max.Nil = true
        · simp only [if_pos hn]
          cases hm : m.MessageByUID r.Min.Value.1 with
          | ok msg =>
            cases msg with
            | none => simp only [Outcome.bind_ok]; exact ih msgs
            | some x =>
              simp only [Outcome.bind_ok]
              rw [ih (msgs ++ [some x]), ih ([] ++ [some x]), Outcome.bind_assoc]
              congr 1
              funext l
              simp
          | panic => rfl
          | hang => rfl
        · simp only [if_neg hn]
          cases hi : uidIndexLoop fuel r.Min.Value.1
              (if r.Max.Last = true then m.LastUID else r.Max.Value.1) with
          | ok u =>
            simp only [Outcome.bind_ok]
            rw [ih, uidFilterLoop_eq, ih (uidFilterLoop _ _ _ _), uidFilterLoop_eq,
              Outcome.bind_assoc]
            congr 1
            funext l
            simp
          | panic => rfl
          | hang => rfl

/-- A bound that is a concrete integer or `*` makes `Value()` fail only when it
is `*`. -/
theorem Value_ok_of_bound (b : SequenceNumber)
    (h : (∃ n, b = .num n) ∨ b = .last) (hl : ¬ b.Last = true) : b.Value.2 = false := by
  rcases h with ⟨n, rfl⟩ | rfl
  · rfl
  · exact absurd rfl hl

/-- Resolving `s1 ++ s2` is resolving `s1` and going on with `s2`, when no range
of `s1` makes the resolver return early (sequence-number mode). -/
theorem seqSetLoop_append (fuel : Nat) (m : FilesystemMailbox) (s2 : List SequenceRange) :
    ∀ (s1 : List SequenceRange), (∀ r ∈ s1, (∃ n, r.Min = .num n) ∨ r.Min = .last) →
      ∀ (msgs : List Message),
        seqSetLoop fuel m (s1 ++ s2) msgs
          = (seqSetLoop fuel m s1 msgs).bind fun l => seqSetLoop fuel m s2 l := by
  intro s1
  induction s1 with
  | nil => intro _ msgs; simp [seqSetLoop]
  | cons r rest ih =>
    intro h msgs
    have hr := h r (List.mem_cons_self _ _)
    have ih1 := ih fun x hx => h x (List.mem_cons_of_mem _ hx)
    simp only [List.cons_append, seqSetLoop]
    by_cases hl : r.Min.Last = true
    · simp only [if_pos hl]
      rw [Outcome.bind_assoc]
      congr 1
      funext msg
      exact ih1 _
    · have he : ¬ r.Min.Value.2 = true := by simp [Value_ok_of_bound r.Min hr hl]
      simp only [if_neg hl, if_neg he]
      by_cases hn : r.Max.Nil = true
      · simp only [if_pos hn]
        rw [Outcome.bind_assoc]
        congr 1
        funext msg
        cases msg with
        | none => exact ih1 _
        | some x => exact ih1 _
      · simp only [if_neg hn]
        rw [Outcome.bind_assoc]
        congr 1
        funext l
        exact ih1 _

/-- Resolving `s1 ++ s2` is resolving `s1` and going on with `s2`, when no range
of `s1` makes the resolver return early (UID mode). -/
theorem uidSetLoop_append (fuel : Nat) (m : FilesystemMailbox) (s2 : List SequenceRange) :
    ∀ (s1 : List SequenceRange), (∀ r ∈ s1, (∃ n, r.Min = .num n) ∨ r.Min = .last) →
      ∀ (msgs : List Message),
        uidSetLoop fuel m (s1 ++ s2) msgs
          = (uidSetLoop fuel m s1 msgs).bind fun l => uidSetLoop fuel m s2 l := by
  intro s1
  induction s1 with
  | nil => intro _ msgs; simp [uidSetLoop]
  | cons r rest ih =>
    intro h msgs
    have hr := h r (List.mem_cons_self _ _)
    have ih1 := ih fun x hx => h x (List.mem_cons_of_mem _ hx)
    simp only [List.cons_append, uidSetLoop]
    by_cases hl : r.Min.Last = true
    · simp only [if_pos hl]
      rw [Outcome.bind_assoc]
      congr 1
      funext msg
      exact ih1 _
    · have he : ¬ r.Min.Value.2 = true := by simp [Value_ok_of_bound r.Min hr hl]
      simp only [if_neg hl, if_neg he]
      by_cases hn : r.Max.Nil = true
      · simp only [if_pos hn]
        rw [Outcome.bind_assoc]
        congr 1
        funext msg
        cases msg with
        | none => exact ih1 _
        | some x => exact ih1 _
      · simp only [if_neg hn]
        rw [Outcome.bind_assoc]
        congr 1
        funext l
        exact ih1 _

theorem Messages_ne_zero (m : FilesystemMailbox) (h0 : 0 < m.messages.length)
    (hlt : m.messages.length < 4294967296) : ¬ m.Messages = 0 := by
  unfold FilesystemMailbox.Messages
  rw [wrap_of_lt hlt]
  omega

/-- One range with two concrete bounds, in sequence-number mode: one entry per
number from `a` to `b`, none when `b < a`. -/
theorem MessageSetBySequenceNumber_two_bounds (fuel : Nat) (m : FilesystemMailbox) (a b : Nat)
    (h0 : 0 < m.messages.length) (hlt : m.messages.length < 4294967296)
    (ha : 1 ≤ a) (ha2 : a < 4294967296) (hb : b < 4294967295) (hf : b + 1 < fuel) :
    m.MessageSetBySequenceNumber fuel [⟨.num a, .num b⟩]
      = .ok ((List.range' a (b + 1 - a)).map fun n => m.messages[n - 1]?) := by
  unfold FilesystemMailbox.MessageSetBySequenceNumber
  rw [if_neg (Messages_ne_zero m h0 hlt)]
  simp only [seqSetLoop, SequenceNumber.Last, SequenceNumber.Value, SequenceNumber.Nil,
    Bool.false_eq_true, if_false]
  rw [wrap_of_lt ha2, wrap_of_lt (by omega : b < 4294967296)]
  by_cases hab : a ≤ b + 1
  · rw [seqRangeLoop_run m hlt (b + 1 - a) fuel a b [] ha (by omega) hb (by omega)]
    simp
  · rw [seqRangeLoop_empty m fuel a b [] (by omega) (by omega)]
    have : b + 1 - a = 0 := by omega
    simp [this]

/-- One range from a concrete bound to `*`, in sequence-number mode. -/
theorem MessageSetBySequenceNumber_to_last (fuel : Nat) (m : FilesystemMailbox) (a : Nat)
    (h0 : 0 < m.messages.length) (hlt : m.messages.length < 4294967295)
    (ha : 1 ≤ a) (ha2 : a ≤ m.messages.length) (hf : m.messages.length + 1 < fuel) :
    m.MessageSetBySequenceNumber fuel [⟨.num a, .last⟩]
      = .ok ((List.range' a (m.messages.length + 1 - a)).map fun n => m.messages[n - 1]?) := by
  unfold FilesystemMailbox.MessageSetBySequenceNumber
  rw [if_neg (Messages_ne_zero m h0 (by omega))]
  simp only [seqSetLoop, SequenceNumber.Last, SequenceNumber.Value, SequenceNumber.Nil,
    Bool.false_eq_true, if_false, if_true]
  rw [wrap_of_lt (by omega : a < 4294967296),
    wrap_of_lt (by omega : m.messages.length < 4294967296),
    seqRangeLoop_run m (by omega) (m.messages.length + 1 - a) fuel a m.messages.length [] ha
      (by omega) hlt (by omega)]
  simp

/-- A list of single numbers, each from 1 on, in sequence-number mode: the
numbers above the message count are skipped. -/
theorem seqSetLoop_singles (fuel : Nat) (m : FilesystemMailbox)
    (hlt : m.messages.length < 4294967296) :
    ∀ (ns : List Nat) (msgs : List Message), (∀ n ∈ ns, 1 ≤ n ∧ n < 4294967296) →
      seqSetLoop fuel m (ns.map fun n => ⟨.num n, .nil⟩) msgs
        = .ok (msgs ++ (ns.filterMap fun n => m.messages[n - 1]?).map some) := by
  intro ns
  induction ns with
  | nil => intro msgs _; simp [seqSetLoop]
  | cons n rest ih =>
    intro msgs h
    have hn := h n (List.mem_cons_self _ _)
    have ih1 := fun acc => ih acc fun x hx => h x (List.mem_cons_of_mem _ hx)
    simp only [List.map_cons, seqSetLoop, SequenceNumber.Last, SequenceNumber.Value,
      SequenceNumber.Nil, Bool.false_eq_true, if_false, if_true]
    rw [wrap_of_lt hn.2, MessageBySequenceNumber_pos m n hlt hn.1 hn.2, Outcome.bind_ok]
    cases hx : m.messages[n - 1]? with
    | none => simp only []; rw [ih1]; simp [List.filterMap_cons, hx]
    | some x => simp only []; rw [ih1]; simp [List.filterMap_cons, hx]

/-- One range with two concrete bounds, in UID mode, the end below the largest
`uint32`: the messages whose UID lies between the bounds, in mailbox order. -/
theorem MessageSetByUID_two_bounds (fuel : Nat) (m : FilesystemMailbox) (a b : Nat)
    (h0 : 0 < m.messages.length) (hlt : m.messages.length < 4294967296)
    (ha2 : a < 4294967296) (hb : b < 4294967295) (hf : b + 1 < fuel) :
    m.MessageSetByUID fuel [⟨.num a, .num b⟩]
      = .ok ((m.messages.filter fun x => decide (a ≤ x.UID ∧ x.UID ≤ b)).map some) := by
  unfold FilesystemMailbox.MessageSetByUID
  rw [if_neg (Messages_ne_zero m h0 hlt)]
  simp only [uidSetLoop, SequenceNumber.Last, SequenceNumber.Value, SequenceNumber.Nil,
    Bool.false_eq_true, if_false]
  rw [wrap_of_lt ha2, wrap_of_lt (by omega : b < 4294967296), uidFilterLoop_eq]
  by_cases hab : a ≤ b + 1
  · rw [uidIndexLoop_run (b + 1 - a) fuel a b (by omega) hb (by omega)]
    simp
  · rw [uidIndexLoop_empty fuel a b (by omega) (by omega)]
    simp

/-- One range from a concrete bound to `*`, in UID mode. -/
theorem MessageSetByUID_to_last (fuel : Nat) (m : FilesystemMailbox) (a : Nat)
    (h0 : 0 < m.messages.length) (hlt : m.messages.length < 4294967295)
    (ha2 : a < 4294967296) (hf : m.messages.length + 1 < fuel) :
    m.MessageSetByUID fuel [⟨.num a, .last⟩]
      = .ok ((m.messages.filter fun x =>
          decide (a ≤ x.UID ∧ x.UID ≤ m.messages.length)).map some) := by
  unfold FilesystemMailbox.MessageSetByUID
  rw [if_neg (Messages_ne_zero m h0 (by omega))]
  simp only [uidSetLoop, SequenceNumber.Last, SequenceNumber.Value, SequenceNumber.Nil,
    Bool.false_eq_true, if_false, if_true, FilesystemMailbox.LastUID]
  rw [wrap_of_lt ha2, wrap_of_lt (by omega : m.messages.length < 4294967296), uidFilterLoop_eq]
  by_cases hab : a ≤ m.messages.length + 1
  · rw [uidIndexLoop_run (m.messages.length + 1 - a) fuel a _ (by omega) hlt (by omega)]
    simp
  · rw [uidIndexLoop_empty fuel a _ (by omega) (by omega)]
    simp

/-- The last message of a non-empty mailbox is what `*` as `Min` resolves to,
in both modes. -/
theorem last_message (m : FilesystemMailbox) (h0 : 0 < m.messages.length)
    (hlt : m.messages.length < 4294967296) :
    ∃ msg, m.messages[m.messages.length - 1]? = some msg ∧
      m.MessageBySequenceNumber m.Messages = .ok (some msg) := by
  have hidx : m.messages.length - 1 < m.messages.length := by omega
  refine ⟨m.messages[m.messages.length - 1], List.getElem?_eq_getElem hidx, ?_⟩
  unfold FilesystemMailbox.Messages
  rw [wrap_of_lt hlt, MessageBySequenceNumber_pos m _ hlt h0 hlt, List.getElem?_eq_getElem hidx]

/-! ## The claims -/

/-- C1, as stated, fails: in a mailbox of two messages the range `1:2` resolves
to both messages and the range `2:1` to none, so the two lists differ. -/
theorem seq_reversed_range_counterexample :
    inbox2.MessageSetBySequenceNumber 8 [⟨.num 1, .num 2⟩]
        = .ok [some (sampleMessage 0), some (sampleMessage 1)] ∧
      inbox2.MessageSetBySequenceNumber 8 [⟨.num 2, .num 1⟩] = .ok [] := by
  constructor <;> rfl

/-- C1, amended: for `1 ≤ a ≤ b ≤ N`, `MessageSetBySequenceNumber` on the range
`(Min=a, Max=b)` returns the messages at the sequence numbers `a .. b` in
ascending order; on `(Min=b, Max=a)` it returns that same list when `a = b` and
the empty list when `a < b`: the bounds are not swapped. -/
theorem MessageSetBySequenceNumber_range_and_reversed (fuel : Nat) (m : FilesystemMailbox)
    (a b : Nat) (ha : 1 ≤ a) (hab : a ≤ b) (hb : b ≤ m.messages.length)
    (hlt : m.messages.length < 4294967295) (hf : b + 1 < fuel) :
    m.MessageSetBySequenceNumber fuel [⟨.num a, .num b⟩]
        = .ok (((m.messages.drop (a - 1)).take (b + 1 - a)).map some) ∧
      m.MessageSetBySequenceNumber fuel [⟨.num b, .num a⟩]
        = .ok (if a = b then ((m.messages.drop (a - 1)).take (b + 1 - a)).map some else []) := by
  have h0 : 0 < m.messages.length := by omega
  constructor
  · rw [MessageSetBySequenceNumber_two_bounds fuel m a b h0 (by omega) ha (by omega) (by omega) hf,
      map_getElem?_range' m.messages a (b + 1 - a) ha (by omega)]
  · rw [MessageSetBySequenceNumber_two_bounds fuel m b a h0 (by omega) (by omega) (by omega)
      (by omega) (by omega)]
    by_cases he : a = b
    · subst he
      rw [if_pos rfl, map_getElem?_range' m.messages a (a + 1 - a) ha (by omega)]
    · rw [if_neg he]
      have : a + 1 - b = 0 := by omega
      simp [this]

/-- C1, amended, at the ranges `2:3` and `3:2` of a mailbox of three messages. -/
theorem MessageSetBySequenceNumber_range_and_reversed_witness :
    inbox3.MessageSetBySequenceNumber 8 [⟨.num 2, .num 3⟩]
        = .ok (((inbox3.messages.drop (2 - 1)).take (3 + 1 - 2)).map some) ∧
      inbox3.MessageSetBySequenceNumber 8 [⟨.num 3, .num 2⟩]
        = .ok (if 2 = 3 then ((inbox3.messages.drop (2 - 1)).take (3 + 1 - 2)).map some else []) :=
  MessageSetBySequenceNumber_range_and_reversed 8 inbox3 2 3 (by decide) (by decide) (by decide)
    (by decide) (by decide)

/-- C2, as stated, fails: in a mailbox of one message the set `1,2`, whose bound
2 is above the message count, resolves without error to the one message found,
and the range `1:2` resolves to that message followed by a nil entry. -/
theorem seq_out_of_range_counterexample :
    inbox1.MessageSetBySequenceNumber 8 [⟨.num 1, .nil⟩, ⟨.num 2, .nil⟩]
        = .ok [some (sampleMessage 0)] ∧
      inbox1.MessageSetBySequenceNumber 8 [⟨.num 1, .num 2⟩]
        = .ok [some (sampleMessage 0), none] := by
  constructor <;> rfl

/-- C2, amended: for a non-empty mailbox and a set of single numbers, each from
1 on, `MessageSetBySequenceNumber` returns normally; a number above the message
count is skipped, and the messages at the other numbers are returned in written
order, none of the entries being nil. -/
theorem MessageSetBySequenceNumber_single_numbers (fuel : Nat) (m : FilesystemMailbox)
    (ns : List Nat) (h0 : 0 < m.messages.length) (hlt : m.messages.length < 4294967296)
    (hns : ∀ n ∈ ns, 1 ≤ n ∧ n < 4294967296) :
    m.MessageSetBySequenceNumber fuel (ns.map fun n => ⟨.num n, .nil⟩)
      = .ok ((ns.filterMap fun n => m.messages[n - 1]?).map some) := by
  unfold FilesystemMailbox.MessageSetBySequenceNumber
  rw [if_neg (Messages_ne_zero m h0 hlt), seqSetLoop_singles fuel m hlt ns [] hns]
  simp

/-- C2, amended, at the set `2,7,1` of a mailbox of three messages. -/
theorem MessageSetBySequenceNumber_single_numbers_witness :
    inbox3.MessageSetBySequenceNumber 0 ([2, 7, 1].map fun n => ⟨.num n, .nil⟩)
      = .ok (([2, 7, 1].filterMap fun n => inbox3.messages[n - 1]?).map some) :=
  MessageSetBySequenceNumber_single_numbers 0 inbox3 [2, 7, 1] (by decide) (by decide)
    (by decide)

/-- C3 at its failing input: in a non-empty mailbox a UID range whose end is
4294967295 never leaves the counting loop of lines 269-270, whatever the fuel. -/
theorem MessageSetByUID_max_end_hangs (fuel : Nat) (m : FilesystemMailbox) (start : Nat)
    (h0 : 0 < m.messages.length) (hlt : m.messages.length < 4294967296) :
    m.MessageSetByUID fuel [⟨.num start, .num 4294967295⟩] = .hang := by
  unfold FilesystemMailbox.MessageSetByUID
  rw [if_neg (Messages_ne_zero m h0 hlt)]
  simp only [uidSetLoop, SequenceNumber.Last, SequenceNumber.Value, SequenceNumber.Nil,
    Bool.false_eq_true, if_false]
  have hmax : wrap 4294967295 = 4294967295 := by decide
  rw [hmax, uidIndexLoop_max fuel _ (wrap_lt start)]
  rfl

/-- C3 at the range `1:4294967295` of a mailbox of one message. -/
theorem MessageSetByUID_max_end_hangs_witness :
    inbox1.MessageSetByUID 1000 [⟨.num 1, .num 4294967295⟩] = .hang :=
  MessageSetByUID_max_end_hangs 1000 inbox1 1 (by decide) (by decide)

/-- C4 at its failing input: for the number 0 both lookups pass the test
`n > len` and index the slice at `0 - 1`, which as a `uint32` is 4294967295: a
run-time panic. From 1 on they return the message at position `n`, or nil. -/
theorem MessageBySequenceNumber_zero_panics (m : FilesystemMailbox)
    (hlt : m.messages.length < 4294967296) :
    m.MessageBySequenceNumber 0 = .panic ∧ m.MessageByUID 0 = .panic ∧
      ∀ n, 1 ≤ n → n < 4294967296 →
        m.MessageBySequenceNumber n = .ok (m.messages[n - 1]?) ∧
        m.MessageByUID n = .ok (m.messages[n - 1]?) :=
  ⟨MessageBySequenceNumber_zero m hlt, MessageBySequenceNumber_zero m hlt,
    fun n h1 h2 => ⟨MessageBySequenceNumber_pos m n hlt h1 h2,
      MessageBySequenceNumber_pos m n hlt h1 h2⟩⟩

/-- C4 at the number 0 in a mailbox of two messages. -/
theorem MessageBySequenceNumber_zero_panics_witness :
    inbox2.MessageBySequenceNumber 0 = .panic ∧ inbox2.MessageByUID 0 = .panic ∧
      ∀ n, 1 ≤ n → n < 4294967296 →
        inbox2.MessageBySequenceNumber n = .ok (inbox2.messages[n - 1]?) ∧
        inbox2.MessageByUID n = .ok (inbox2.messages[n - 1]?) :=
  MessageBySequenceNumber_zero_panics inbox2 (by decide)

/-- C5: in a mailbox of `N ≥ 1` messages the set `*` resolves, in
sequence-number mode, to the list of exactly one message, the one at sequence
number `N`. -/
theorem MessageSetBySequenceNumber_star (fuel : Nat) (m : FilesystemMailbox)
    (h0 : 0 < m.messages.length) (hlt : m.messages.length < 4294967296) :
    ∃ msg, m.messages[m.messages.length - 1]? = some msg ∧
      m.MessageSetBySequenceNumber fuel [⟨.last, .nil⟩] = .ok [some msg] := by
  obtain ⟨msg, hmsg, hlast⟩ := last_message m h0 hlt
  refine ⟨msg, hmsg, ?_⟩
  unfold FilesystemMailbox.MessageSetBySequenceNumber
  rw [if_neg (Messages_ne_zero m h0 hlt)]
  simp only [seqSetLoop, SequenceNumber.Last, if_true]
  rw [hlast]
  rfl

/-- C5 at a mailbox of three messages. -/
theorem MessageSetBySequenceNumber_star_witness :
    ∃ msg, inbox3.messages[inbox3.messages.length - 1]? = some msg ∧
      inbox3.MessageSetBySequenceNumber 0 [⟨.last, .nil⟩] = .ok [some msg] :=
  MessageSetBySequenceNumber_star 0 inbox3 (by decide) (by decide)

/-- C6, as stated, fails: in a mailbox of two messages the UID range `*:1`
resolves to the last message alone and the range `1:*` to both messages. -/
theorem uid_star_min_counterexample :
    inbox2.MessageSetByUID 8 [⟨.last, .num 1⟩] = .ok [some (sampleMessage 1)] ∧
      inbox2.MessageSetByUID 8 [⟨.num 1, .last⟩]
        = .ok [some (sampleMessage 0), some (sampleMessage 1)] := by
  constructor <;> rfl

/-- C6, amended: for `1 ≤ a ≤ N`, `MessageSetByUID` on `(Min=*, Max=a)` returns
the one message at position `N`, whatever `a` is; on `(Min=a, Max=*)` it returns,
in mailbox order, the messages whose UID lies between `a` and `LastUID()`. -/
theorem MessageSetByUID_star_bounds (fuel : Nat) (m : FilesystemMailbox) (a : Nat)
    (ha : 1 ≤ a) (haN : a ≤ m.messages.length) (hlt : m.messages.length < 4294967295)
    (hf : m.messages.length + 1 < fuel) :
    (∃ msg, m.messages[m.messages.length - 1]? = some msg ∧
        m.MessageSetByUID fuel [⟨.last, .num a⟩] = .ok [some msg]) ∧
      m.MessageSetByUID fuel [⟨.num a, .last⟩]
        = .ok ((m.messages.filter fun x => decide (a ≤ x.UID ∧ x.UID ≤ m.LastUID)).map some) := by
  have h0 : 0 < m.messages.length := by omega
  constructor
  · obtain ⟨msg, hmsg, hlast⟩ := last_message m h0 (by omega)
    refine ⟨msg, hmsg, ?_⟩
    unfold FilesystemMailbox.MessageSetByUID
    rw [if_neg (Messages_ne_zero m h0 (by omega))]
    simp only [uidSetLoop, SequenceNumber.Last, if_true]
    have : m.MessageByUID m.LastUID = .ok (some msg) := hlast
    rw [this]
    rfl
  · rw [MessageSetByUID_to_last fuel m a h0 hlt (by omega) hf]
    unfold FilesystemMailbox.LastUID
    rw [wrap_of_lt (by omega : m.messages.length < 4294967296)]

/-- C6, amended, at the ranges `*:2` and `2:*` of a mailbox of three messages. -/
theorem MessageSetByUID_star_bounds_witness :
    (∃ msg, inbox3.messages[inbox3.messages.length - 1]? = some msg ∧
        inbox3.MessageSetByUID 8 [⟨.last, .num 2⟩] = .ok [some msg]) ∧
      inbox3.MessageSetByUID 8 [⟨.num 2, .last⟩]
        = .ok ((inbox3.messages.filter fun x =>
            decide (2 ≤ x.UID ∧ x.UID ≤ inbox3.LastUID)).map some) :=
  MessageSetByUID_star_bounds 8 inbox3 2 (by decide) (by decide) (by decide) (by decide)

/-- C7: for `1 ≤ a ≤ N`, `MessageSetBySequenceNumber` on `(Min=a, Max=*)` returns
the messages at the sequence numbers `a, a+1, .., N` in that order, and on
`1:*` all `N` messages in ascending sequence order. -/
theorem MessageSetBySequenceNumber_to_star (fuel : Nat) (m : FilesystemMailbox) (a : Nat)
    (ha : 1 ≤ a) (haN : a ≤ m.messages.length) (hlt : m.messages.length < 4294967295)
    (hf : m.messages.length + 1 < fuel) :
    m.MessageSetBySequenceNumber fuel [⟨.num a, .last⟩]
        = .ok ((m.messages.drop (a - 1)).map some) ∧
      m.MessageSetBySequenceNumber fuel [⟨.num 1, .last⟩] = .ok (m.messages.map some) := by
  have h0 : 0 < m.messages.length := by omega
  constructor
  · rw [MessageSetBySequenceNumber_to_last fuel m a h0 hlt ha haN hf,
      map_getElem?_range' m.messages a _ ha (by omega),
      List.take_of_length_le (by simp; omega)]
  · rw [MessageSetBySequenceNumber_to_last fuel m 1 h0 hlt (by omega) (by omega) hf,
      map_getElem?_range' m.messages 1 _ (by omega) (by omega),
      List.take_of_length_le (by simp)]
    simp

/-- C7 at the range `2:*` of a mailbox of three messages. -/
theorem MessageSetBySequenceNumber_to_star_witness :
    inbox3.MessageSetBySequenceNumber 8 [⟨.num 2, .last⟩]
        = .ok ((inbox3.messages.drop (2 - 1)).map some) ∧
      inbox3.MessageSetBySequenceNumber 8 [⟨.num 1, .last⟩] = .ok (inbox3.messages.map some) :=
  MessageSetBySequenceNumber_to_star 8 inbox3 2 (by decide) (by decide) (by decide) (by decide)

/-- C8: on a mailbox without messages both resolvers return the empty list for
every sequence set, without running any loop. -/
theorem resolvers_empty_mailbox (fuel : Nat) (m : FilesystemMailbox) (set : SequenceSet)
    (h : m.messages = []) :
    m.MessageSetBySequenceNumber fuel set = .ok [] ∧ m.MessageSetByUID fuel set = .ok [] := by
  have hz : m.Messages = 0 := by
    unfold FilesystemMailbox.Messages
    rw [h]
    rfl
  constructor
  · unfold FilesystemMailbox.MessageSetBySequenceNumber
    rw [if_pos hz]
  · unfold FilesystemMailbox.MessageSetByUID
    rw [if_pos hz]

/-- C8 at the set `0,1:4294967295,*` and no fuel. -/
theorem resolvers_empty_mailbox_witness :
    emptyInbox.MessageSetBySequenceNumber 0
        [⟨.num 0, .nil⟩, ⟨.num 1, .num 4294967295⟩, ⟨.last, .nil⟩] = .ok [] ∧
      emptyInbox.MessageSetByUID 0
        [⟨.num 0, .nil⟩, ⟨.num 1, .num 4294967295⟩, ⟨.last, .nil⟩] = .ok [] :=
  resolvers_empty_mailbox 0 emptyInbox _ rfl

/-- C9: when every `Min` of `s1` is a concrete integer or `*`, resolving
`s1 ++ s2` is resolving `s1`, then `s2`, and putting the second list behind the
first, in both modes; a panic or an unfinished loop of either part is one of the
whole. Nothing is deduplicated: `s ++ s` yields the list of `s` twice. -/
theorem resolvers_append (fuel : Nat) (m : FilesystemMailbox) (s1 s2 : SequenceSet)
    (h1 : ∀ r ∈ s1, (∃ n, r.Min = .num n) ∨ r.Min = .last) :
    m.MessageSetBySequenceNumber fuel (s1 ++ s2)
        = ((m.MessageSetBySequenceNumber fuel s1).bind fun l1 =>
            (m.MessageSetBySequenceNumber fuel s2).bind fun l2 => .ok (l1 ++ l2)) ∧
      m.MessageSetByUID fuel (s1 ++ s2)
        = ((m.MessageSetByUID fuel s1).bind fun l1 =>
            (m.MessageSetByUID fuel s2).bind fun l2 => .ok (l1 ++ l2)) ∧
      (∀ l, m.MessageSetBySequenceNumber fuel s1 = .ok l →
        m.MessageSetBySequenceNumber fuel (s1 ++ s1) = .ok (l ++ l)) ∧
      (∀ l, m.MessageSetByUID fuel s1 = .ok l →
        m.MessageSetByUID fuel (s1 ++ s1) = .ok (l ++ l)) := by
  have hseq : ∀ s2 : SequenceSet, m.MessageSetBySequenceNumber fuel (s1 ++ s2)
        = ((m.MessageSetBySequenceNumber fuel s1).bind fun l1 =>
            (m.MessageSetBySequenceNumber fuel s2).bind fun l2 => .ok (l1 ++ l2)) := by
    intro s2
    unfold FilesystemMailbox.MessageSetBySequenceNumber
    by_cases hz : m.Messages = 0
    · simp [if_pos hz]
    · simp only [if_neg hz]
      rw [seqSetLoop_append fuel m s2 s1 h1 []]
      congr 1
      funext l
      exact seqSetLoop_acc fuel m s2 l
  have huid : ∀ s2 : SequenceSet, m.MessageSetByUID fuel (s1 ++ s2)
        = ((m.MessageSetByUID fuel s1).bind fun l1 =>
            (m.MessageSetByUID fuel s2).bind fun l2 => .ok (l1 ++ l2)) := by
    intro s2
    unfold FilesystemMailbox.MessageSetByUID
    by_cases hz : m.Messages = 0
    · simp [if_pos hz]
    · simp only [if_neg hz]
      rw [uidSetLoop_append fuel m s2 s1 h1 []]
      congr 1
      funext l
      exact uidSetLoop_acc fuel m s2 l
  refine ⟨hseq s2, huid s2, ?_, ?_⟩
  · intro l hl
    rw [hseq s1, hl]
    rfl
  · intro l hl
    rw [huid s1, hl]
    rfl

/-- C9 at the sets `1,*` and `1:2` of a mailbox of two messages. -/
theorem resolvers_append_witness :
    inbox2.MessageSetBySequenceNumber 8 ([⟨.num 1, .nil⟩, ⟨.last, .nil⟩] ++ [⟨.num 1, .num 2⟩])
        = ((inbox2.MessageSetBySequenceNumber 8 [⟨.num 1, .nil⟩, ⟨.last, .nil⟩]).bind fun l1 =>
            (inbox2.MessageSetBySequenceNumber 8 [⟨.num 1, .num 2⟩]).bind fun l2 =>
              .ok (l1 ++ l2)) ∧
      inbox2.MessageSetByUID 8 ([⟨.num 1, .nil⟩, ⟨.last, .nil⟩] ++ [⟨.num 1, .num 2⟩])
        = ((inbox2.MessageSetByUID 8 [⟨.num 1, .nil⟩, ⟨.last, .nil⟩]).bind fun l1 =>
            (inbox2.MessageSetByUID 8 [⟨.num 1, .num 2⟩]).bind fun l2 => .ok (l1 ++ l2)) ∧
      (∀ l, inbox2.MessageSetBySequenceNumber 8 [⟨.num 1, .nil⟩, ⟨.last, .nil⟩] = .ok l →
        inbox2.MessageSetBySequenceNumber 8
          ([⟨.num 1, .nil⟩, ⟨.last, .nil⟩] ++ [⟨.num 1, .nil⟩, ⟨.last, .nil⟩]) = .ok (l ++ l)) ∧
      (∀ l, inbox2.MessageSetByUID 8 [⟨.num 1, .nil⟩, ⟨.last, .nil⟩] = .ok l →
        inbox2.MessageSetByUID 8
          ([⟨.num 1, .nil⟩, ⟨.last, .nil⟩] ++ [⟨.num 1, .nil⟩, ⟨.last, .nil⟩]) = .ok (l ++ l)) :=
  resolvers_append 8 inbox2 [⟨.num 1, .nil⟩, ⟨.last, .nil⟩] [⟨.num 1, .num 2⟩] (by
    intro r hr
    simp only [List.mem_cons, List.mem_singleton, List.not_mem_nil, or_false] at hr
    rcases hr with rfl | rfl
    · exact Or.inl ⟨1, rfl⟩
    · exact Or.inr rfl)

/-- The set `1,1:2` on a mailbox of two messages: the first message is listed
twice, in the order the ranges were written. -/
theorem resolvers_keep_duplicates :
    inbox2.MessageSetBySequenceNumber 8 [⟨.num 1, .nil⟩, ⟨.num 1, .num 2⟩]
        = .ok [some (sampleMessage 0), some (sampleMessage 0), some (sampleMessage 1)] ∧
      inbox2.MessageSetByUID 8 [⟨.num 1, .nil⟩, ⟨.num 1, .num 2⟩]
        = .ok [some (sampleMessage 0), some (sampleMessage 0), some (sampleMessage 1)] := by
  constructor <;> rfl

/-- The mailbox with the UIDs 1, 3 and 4 and the UID range `2:4`: the messages
with the UIDs 3 and 4, in that order. -/
theorem MessageSetByUID_gap :
    inboxGap.MessageSetByUID 8 [⟨.num 2, .num 4⟩]
      = .ok [some (sampleMessage 2), some (sampleMessage 3)] := by
  rfl

end Mailstore

namespace Imap

open Mailstore

/-- An authenticated session passes `assertAuthenticated` with nothing written. -/
theorem assertAuthenticated_of_authenticated (c : Conn) (seq : String)
    (h : c.State = ConnState.Authenticated ∨ c.State = ConnState.Selected) :
    c.assertAuthenticated seq = (true, c) := by
  unfold Conn.assertAuthenticated
  rw [if_pos h]

/-- The mailbox loop of `cmdList` only adds lines behind those written before. -/
theorem listLoop_written (RE : RegexpEngine) (re : RE.Regexp) :
    ∀ (mbs : List FilesystemMailbox) (c : Conn),
      ∃ lines, (listLoop RE re mbs c).written = c.written ++ lines ∧
        ∀ line ∈ lines, ∃ name, line = "* LIST () \"/\" \"" ++ name ++ "\"" := by
  intro mbs
  induction mbs with
  | nil => intro c; exact ⟨[], by simp [listLoop], by simp⟩
  | cons mb rest ih =>
    intro c
    simp only [listLoop]
    by_cases hm : RE.MatchString re mb.Name = true
    · rw [if_pos hm]
      obtain ⟨lines, h1, h2⟩ := ih (c.writeResponse "" ("LIST () \"/\" \"" ++ mb.Name ++ "\""))
      refine ⟨("* LIST () \"/\" \"" ++ mb.Name ++ "\"") :: lines, ?_, ?_⟩
      · rw [h1]
        have e : "* " ++ ("LIST () \"/\" \"" ++ mb.Name ++ "\"")
            = "* LIST () \"/\" \"" ++ mb.Name ++ "\"" := by
          rw [← String.append_assoc, ← String.append_assoc]
          rfl
        simp [Conn.writeResponse, e]
      · intro line hl
        rcases List.mem_cons.mp hl with rfl | hl
        · exact ⟨mb.Name, rfl⟩
        · exact h2 line hl
    · rw [if_neg hm]
      exact ih c

/-- The paths of `cmdList` that reach line 45: in an authenticated session with a
user, when the mailbox name is empty or the pattern compiles, the handler adds
its untagged `LIST` lines and then, last, the one line `<tag> OK LIST completed`. -/
theorem cmdList_completes (RE : RegexpEngine) (args : commandArgs) (c : Conn) (user : User)
    (hauth : c.State = ConnState.Authenticated ∨ c.State = ConnState.Selected)
    (huser : c.User = some user) (htag : args.ID ≠ "")
    (hre : args.Arg 1 = "" ∨ (RE.Compile (listPattern (args.Arg 0) (args.Arg 1))).isSome) :
    ∃ c1 lines, cmdList RE args c = .ok c1 ∧
      c1.written = c.written ++ lines ++ [args.ID ++ " OK LIST completed"] ∧
      ∀ line ∈ lines, ∃ text, line = "* " ++ text := by
  have etag : args.ID ++ " " ++ "OK LIST completed" = args.ID ++ " OK LIST completed" := by
    rw [String.append_assoc]
    rfl
  unfold cmdList
  rw [assertAuthenticated_of_authenticated c _ hauth]
  simp only []
  by_cases hname : args.Arg 1 = ""
  · rw [if_pos hname]
    refine ⟨_, ["* LIST (\\Noselect) \"/\" \"\""], rfl, ?_, ?_⟩
    · simp [Conn.writeResponse, htag, etag]
    · intro line hl
      exact ⟨"LIST (\\Noselect) \"/\" \"\"", by simpa using hl⟩
  · rw [if_neg hname]
    rcases hre with h | h
    · exact absurd h hname
    · obtain ⟨re, hre⟩ := Option.isSome_iff_exists.mp h
      rw [hre, huser]
      obtain ⟨lines, h1, h2⟩ := listLoop_written RE re user.Mailboxes c
      refine ⟨_, lines, rfl, ?_, ?_⟩
      · simp [Conn.writeResponse, htag, h1, etag]
      · intro line hl
        obtain ⟨name, hn⟩ := h2 line hl
        refine ⟨"LIST () \"/\" \"" ++ name ++ "\"", ?_⟩
        rw [hn, ← String.append_assoc, ← String.append_assoc]
        rfl

/-- C10 at its failing input: in an authenticated session, when the mailbox name
is not empty and `regexp.Compile` refuses the pattern built from it, `cmdList`
returns at line 22 with the connection as it was: no line is written, so no
tagged response either. -/
theorem cmdList_compile_error_writes_nothing (RE : RegexpEngine) (args : commandArgs)
    (c : Conn) (hauth : c.State = ConnState.Authenticated ∨ c.State = ConnState.Selected)
    (hname : args.Arg 1 ≠ "")
    (hre : RE.Compile (listPattern (args.Arg 0) (args.Arg 1)) = none) :
    cmdList RE args c = .ok c := by
  unfold cmdList
  rw [assertAuthenticated_of_authenticated c _ hauth]
  simp only []
  rw [if_neg hname, hre]

/-- C10 at the command `a1 LIST "" "("`, whose pattern `^($` has an unclosed group. -/
theorem cmdList_compile_error_writes_nothing_witness :
    cmdList literalEngine ⟨"a1", ["", "("]⟩ sampleConn = .ok sampleConn :=
  cmdList_compile_error_writes_nothing literalEngine ⟨"a1", ["", "("]⟩ sampleConn
    (Or.inl rfl) (by decide) rfl

end Imap

/-! ## Lemmas on the counters and on the walk -/

namespace Mailstore

/-- The loop of `Recent` counts the messages with the Recent flag, as long as the
counter stays a `uint32`. -/
theorem recentLoop_eq : ∀ (l : List FilesystemMessage) (count : Nat),
    count + l.length < 4294967296 →
    recentLoop l count = count + l.countP fun x => HasFlags x.Flags FlagRecent := by
  intro l
  induction l with
  | nil => intro count _; simp [recentLoop]
  | cons x rest ih =>
    intro count h
    simp only [List.length_cons] at h
    simp only [recentLoop]
    by_cases hx : HasFlags x.Flags FlagRecent = true
    · rw [if_pos hx, wrap_of_lt (by omega), ih _ (by omega), List.countP_cons, if_pos hx]
      omega
    · rw [if_neg hx, ih _ (by omega), List.countP_cons, if_neg hx]
      rfl

/-- The loop of `Unseen` counts the messages without the Seen flag, as long as
the counter stays a `uint32`. -/
theorem unseenLoop_eq : ∀ (l : List FilesystemMessage) (count : Nat),
    count + l.length < 4294967296 →
    unseenLoop l count = count + l.countP fun x => !HasFlags x.Flags FlagSeen := by
  intro l
  induction l with
  | nil => intro count _; simp [unseenLoop]
  | cons x rest ih =>
    intro count h
    simp only [List.length_cons] at h
    simp only [unseenLoop]
    by_cases hx : (!HasFlags x.Flags FlagSeen) = true
    · rw [if_pos hx, wrap_of_lt (by omega), ih _ (by omega), List.countP_cons, if_pos hx]
      omega
    · rw [if_neg hx, ih _ (by omega), List.countP_cons, if_neg hx]
      rfl

/-- With the largest `uint32` as its end the range loop of sequence-number mode
never reaches its exit: it is still running or it has panicked. -/
theorem seqRangeLoop_max (m : FilesystemMailbox) : ∀ (fuel seqNo : Nat) (msgs l : List Message),
    seqNo < 4294967296 → seqRangeLoop m fuel seqNo 4294967295 msgs ≠ .ok l := by
  intro fuel
  induction fuel with
  | zero => intro seqNo msgs l _ h; simp [seqRangeLoop] at h
  | succ f ih =>
    intro seqNo msgs l hlt h
    simp only [seqRangeLoop] at h
    rw [if_pos (by omega)] at h
    cases hm : m.MessageBySequenceNumber seqNo with
    | ok msg =>
      rw [hm, Outcome.bind_ok] at h
      exact ih _ _ _ (wrap_lt _) h
    | panic => rw [hm] at h; simp at h
    | hang => rw [hm] at h; simp at h

/-- A new mailbox, appended by the walk at a directory, keeps the invariant. -/
theorem WalkInv_dir (k : Nat) (st : WalkState) (e : WalkEntry) (h : WalkInv k st)
    (hk : k < 4294967295) :
    WalkInv (k + 1)
      { mailboxes := st.mailboxes ++ [⟨e.path, e.info, st.mbID, []⟩],
        mbID := wrap (st.mbID + 1), emID := 0, temID := st.temID } := by
  obtain ⟨init, cur, hmb, hid, _, hle, hall⟩ := h
  refine ⟨init ++ [cur], ⟨e.path, e.info, st.mbID, []⟩, ?_, ?_, rfl, ?_, ?_⟩
  · simp only [hmb]
  · simp only [hid, List.length_append, List.length_singleton]
    exact wrap_of_lt (by omega)
  · simp only [List.length_append, List.length_singleton]
    omega
  · intro mb hmem
    simp only [List.mem_append, List.mem_singleton] at hmem
    rcases hmem with hmem | rfl
    · obtain ⟨h1, h2⟩ := hall mb hmem
      exact ⟨h1, by omega⟩
    · exact ⟨rfl, by simp⟩

/-- A message, appended by the walk at a regular file to the mailbox written
last, keeps the invariant. -/
theorem WalkInv_file (k : Nat) (st : WalkState) (e : WalkEntry) (h : WalkInv k st)
    (hk : k < 4294967295) :
    ∃ mb, st.mailboxes[wrap (st.mbID + 4294967295)]? = some mb ∧
      WalkInv (k + 1)
        { mailboxes := st.mailboxes.set (wrap (st.mbID + 4294967295))
            { mb with messages := mb.messages ++ [⟨e.path, some e.info, st.emID, 1⟩] },
          mbID := st.mbID, emID := wrap (st.emID + 1), temID := wrap (st.temID + 1) } := by
  obtain ⟨init, cur, hmb, hid, hem, hle, hall⟩ := h
  have hidx : wrap (st.mbID + 4294967295) = init.length := by
    rw [hid, wrap_pred (by omega) (by omega)]
    omega
  have hcur := hall cur (by rw [hmb]; simp)
  refine ⟨cur, ?_, ?_⟩
  · rw [hidx, hmb]
    exact List.getElem?_concat_length init cur
  · rw [hidx, hmb, List.set_append_right _ _ (Nat.le_refl _)]
    simp only [Nat.sub_self, List.set_cons_zero]
    refine ⟨init, _, rfl, hid, ?_, by omega, ?_⟩
    · simp only [List.length_append, List.length_singleton]
      rw [hem, wrap_of_lt (by omega)]
    · intro mb hmem
      simp only [List.mem_append, List.mem_singleton] at hmem
      rcases hmem with hmem | rfl
      · obtain ⟨h1, h2⟩ := hall mb (by rw [hmb]; simp [hmem])
        exact ⟨h1, by omega⟩
      · simp only [List.map_append, List.map_cons, List.map_nil, List.length_append,
          List.length_singleton]
        rw [hcur.1, hem, List.range_succ]
        exact ⟨rfl, by omega⟩

/-- From a state that satisfies the invariant the walk does not panic, goes
through when no entry reports an error, and ends in a state that satisfies the
invariant. -/
theorem walkLoop_inv : ∀ (rest : List WalkEntry) (st : WalkState) (k : Nat),
    WalkInv k st → k + rest.length < 4294967295 →
    (∃ r, walkLoop rest st = .ok r) ∧
      ((∀ x ∈ rest, x.err = false) → ∃ st1, walkLoop rest st = .ok (some st1)) ∧
      ∀ st1, walkLoop rest st = .ok (some st1) → WalkInv (k + rest.length) st1 := by
  intro rest
  induction rest with
  | nil =>
    intro st k h _
    refine ⟨⟨_, rfl⟩, fun _ => ⟨st, rfl⟩, ?_⟩
    intro st1 h1
    simp only [walkLoop, Outcome.ok.injEq, Option.some.injEq] at h1
    subst h1
    exact h
  | cons e rest ih =>
    intro st k h hk
    simp only [List.length_cons] at hk
    have hsum : k + (e :: rest).length = k + 1 + rest.length := by
      simp only [List.length_cons]; omega
    rw [hsum]
    simp only [walkLoop]
    by_cases herr : e.err = true
    · simp only [if_pos herr]
      refine ⟨⟨_, rfl⟩, ?_, ?_⟩
      · intro hall
        have := hall e (List.mem_cons_self _ _)
        rw [herr] at this
        exact absurd this (by simp)
      · intro st1 h1
        simp at h1
    · simp only [if_neg herr]
      by_cases hdir : e.info.isDir = true
      · simp only [if_pos hdir]
        obtain ⟨h1, h2, h3⟩ := ih _ (k + 1) (WalkInv_dir k st e h (by omega)) (by omega)
        exact ⟨h1, fun hall => h2 fun x hx => hall x (List.mem_cons_of_mem _ hx), h3⟩
      · simp only [if_neg hdir]
        obtain ⟨mb, hget, hinv⟩ := WalkInv_file k st e h (by omega)
        simp only [hget]
        obtain ⟨h1, h2, h3⟩ := ih _ (k + 1) hinv (by omega)
        exact ⟨h1, fun hall => h2 fun x hx => hall x (List.mem_cons_of_mem _ hx), h3⟩

/-- In a mailbox whose message at index `i` has the ID `i`, the UIDs and the
sequence numbers are `1, 2, .., N` in order. -/
theorem UID_of_numbered (m : FilesystemMailbox)
    (hnum : m.messages.map FilesystemMessage.ID = List.range m.messages.length)
    (hlt : m.messages.length < 4294967296) :
    m.messages.map FilesystemMessage.UID = List.range' 1 m.messages.length ∧
      m.messages.map FilesystemMessage.SequenceNumber = List.range' 1 m.messages.length := by
  have key : m.messages.map (fun x => wrap (x.ID + 1)) = List.range' 1 m.messages.length := by
    have h1 : m.messages.map (fun x => wrap (x.ID + 1))
        = (m.messages.map FilesystemMessage.ID).map (fun i => wrap (i + 1)) := by
      rw [List.map_map]
      rfl
    rw [h1, hnum, List.range'_eq_map_range]
    apply List.map_congr_left
    intro i hi
    rw [List.mem_range] at hi
    rw [wrap_of_lt (by omega)]
    omega
  exact ⟨key, key⟩

/-- In a mailbox whose message at index `i` has the ID `i`, the lookups by UID
and by sequence number return the message that carries the number asked for. -/
theorem lookup_of_numbered (m : FilesystemMailbox)
    (hnum : m.messages.map FilesystemMessage.ID = List.range m.messages.length)
    (hlt : m.messages.length < 4294967296) (n : Nat) (h1 : 1 ≤ n) (h2 : n ≤ m.Messages) :
    ∃ msg, m.MessageByUID n = .ok (some msg) ∧ msg.UID = n ∧
      m.MessageBySequenceNumber n = .ok (some msg) ∧ msg.SequenceNumber = n := by
  have hm : m.Messages = m.messages.length := wrap_of_lt hlt
  rw [hm] at h2
  have hidx : n - 1 < m.messages.length := by omega
  have hget : m.messages[n - 1]? = some m.messages[n - 1] := List.getElem?_eq_getElem hidx
  have hid : (m.messages[n - 1]).ID = n - 1 := by
    have h3 : (m.messages.map FilesystemMessage.ID)[n - 1]? = some (m.messages[n - 1]).ID := by
      rw [List.getElem?_map, hget]
      rfl
    rw [hnum, List.getElem?_range hidx] at h3
    exact (Option.some.inj h3).symm
  have huid : wrap ((m.messages[n - 1]).ID + 1) = n := by
    rw [hid, wrap_of_lt (by omega)]
    omega
  have hlook : m.MessageBySequenceNumber n = .ok (some m.messages[n - 1]) := by
    rw [MessageBySequenceNumber_pos m n hlt h1 (by omega), hget]
  exact ⟨m.messages[n - 1], hlook, huid, hlook, huid⟩

/-- Replacing a mailbox by one of the same path leaves the list of paths as it
is. -/
theorem map_path_set (l : List FilesystemMailbox) (i : Nat) (mb mb1 : FilesystemMailbox)
    (hget : l[i]? = some mb) (hpath : mb1.path = mb.path) :
    (l.set i mb1).map FilesystemMailbox.path = l.map FilesystemMailbox.path := by
  apply List.ext_getElem?
  intro j
  by_cases hj : i = j
  · subst hj
    have hi : i < l.length := by
      rcases Nat.lt_or_ge i l.length with h | h
      · exact h
      · rw [List.getElem?_eq_none h] at hget
        exact absurd hget (by simp)
    have hmb : l[i] = mb := by
      rw [List.getElem?_eq_getElem hi] at hget
      exact Option.some.inj hget
    simp [List.getElem?_map, List.getElem?_set, hi, hpath, hmb]
  · simp [List.getElem?_map, List.getElem?_set, hj]

/-- The walk creates one mailbox per directory, in walk order, whatever it does
with the files. -/
theorem walkLoop_paths : ∀ (rest : List WalkEntry) (st st1 : WalkState),
    walkLoop rest st = .ok (some st1) →
    st1.mailboxes.map FilesystemMailbox.path
      = st.mailboxes.map FilesystemMailbox.path
        ++ (rest.filter fun e => e.info.isDir).map WalkEntry.path := by
  intro rest
  induction rest with
  | nil =>
    intro st st1 h
    simp only [walkLoop, Outcome.ok.injEq, Option.some.injEq] at h
    subst h
    simp
  | cons e rest ih =>
    intro st st1 h
    simp only [walkLoop] at h
    by_cases herr : e.err = true
    · simp [if_pos herr] at h
    · simp only [if_neg herr] at h
      by_cases hdir : e.info.isDir = true
      · simp only [if_pos hdir] at h
        rw [ih _ _ h, List.filter_cons, if_pos hdir]
        simp
      · simp only [if_neg hdir] at h
        cases hget : st.mailboxes[wrap (st.mbID + 4294967295)]? with
        | none => simp [hget] at h
        | some mb =>
          simp only [hget] at h
          rw [ih _ _ h, List.filter_cons, if_neg hdir]
          simp only []
          rw [map_path_set st.mailboxes _ mb
            { mb with messages := mb.messages ++ [⟨e.path, some e.info, st.emID, 1⟩] } hget rfl]

/-- The store built has one mailbox per directory of the walk, in walk order. -/
theorem NewFilesystemMailstore_one_mailbox_per_directory (dirname : String)
    (walk : List WalkEntry) (ms : FilesystemMailstore)
    (h : NewFilesystemMailstore dirname false walk = .ok (some ms)) :
    ms.mailboxes.map FilesystemMailbox.path
      = (walk.filter fun e => e.info.isDir).map WalkEntry.path := by
  unfold NewFilesystemMailstore at h
  simp only [Bool.false_eq_true, if_false] at h
  cases hw : walkLoop walk ⟨[], 0, 0, 0⟩ with
  | ok r =>
    rw [hw] at h
    cases r with
    | none => simp at h
    | some st1 =>
      simp only [Outcome.bind_ok, Outcome.ok.injEq, Option.some.injEq] at h
      subst h
      have := walkLoop_paths walk _ st1 hw
      simpa using this
  | panic => rw [hw] at h; simp at h
  | hang => rw [hw] at h; simp at h

end Mailstore

/-! ## The claims on the store, the counters and the handlers -/

namespace Mailstore

/-- C14: for a store whose first user holds the stored pair, `Authenticate`
returns, and it returns no error exactly when both the username and the password
equal the stored ones; then the user returned is the stored one, marked
authenticated and linked to the store. When it returns an error the store, and
with it the stored user's `authenticated` flag and `mailstore` link, is as
before. -/
theorem Authenticate_accepts_iff_stored_pair (d : FilesystemMailstore) (u0 : FilesystemUser)
    (others : List FilesystemUser) (username password : String) (hd : d.users = u0 :: others) :
    ∃ d1 usr err, d.Authenticate username password = .ok (d1, usr, err) ∧
      (err = none ↔ username = u0.username ∧ password = u0.password) ∧
      (err = none →
        usr = { u0 with authenticated := true, mailstore := some d.mailboxes } ∧
        d1.users = usr :: others) ∧
      (err ≠ none → d1 = d) := by
  unfold FilesystemMailstore.Authenticate
  rw [hd]
  simp only [List.getElem?_cons_zero, List.set_cons_zero]
  by_cases hu : username = u0.username
  · by_cases hp : password = u0.password
    · rw [if_neg (not_not.mpr hu), if_neg (not_not.mpr hp)]
      exact ⟨_, _, _, rfl, by simp [hu, hp], fun _ => ⟨rfl, rfl⟩, fun h => absurd rfl h⟩
    · rw [if_neg (not_not.mpr hu), if_pos hp]
      exact ⟨_, _, _, rfl, by simp [hp], fun h => by simp at h, fun _ => rfl⟩
  · rw [if_pos hu]
    exact ⟨_, _, _, rfl, by simp [hu], fun h => by simp at h, fun _ => rfl⟩

/-- C14 at the store built by `NewFilesystemMailstore` and a wrong password. -/
theorem Authenticate_accepts_iff_stored_pair_witness :
    ∃ d1 usr err, sampleStore.Authenticate "username" "secret" = .ok (d1, usr, err) ∧
      (err = none ↔ "username" = "username" ∧ "secret" = "password") ∧
      (err = none →
        usr = { (⟨"username", "password", false, none⟩ : FilesystemUser) with
            authenticated := true, mailstore := some sampleStore.mailboxes } ∧
        d1.users = usr :: []) ∧
      (err ≠ none → d1 = sampleStore) :=
  Authenticate_accepts_iff_stored_pair sampleStore ⟨"username", "password", false, none⟩ []
    "username" "secret" rfl

/-- C15 at its failing input: on a mailbox without messages `LastUID()` returns
0, while `NextUID()`, the next expected UID, returns 1. -/
theorem LastUID_empty_is_not_NextUID (m : FilesystemMailbox) (h : m.messages = []) :
    m.LastUID = 0 ∧ m.NextUID = 1 ∧ m.LastUID ≠ m.NextUID := by
  unfold FilesystemMailbox.LastUID FilesystemMailbox.NextUID
  rw [h]
  decide

/-- C15 at the empty mailbox `INBOX`. -/
theorem LastUID_empty_is_not_NextUID_witness :
    emptyInbox.LastUID = 0 ∧ emptyInbox.NextUID = 1 ∧ emptyInbox.LastUID ≠ emptyInbox.NextUID :=
  LastUID_empty_is_not_NextUID emptyInbox rfl

/-- C16 at its failing input: on a message whose flags are Seen, the three flag
operations, whose assignments are commented out, do not do what their doc
comments say: `OverwriteFlags` with Answered leaves the flags Seen instead of
replacing them, `AddFlags` with Answered leaves Answered unset, and
`RemoveFlags` with Seen leaves Seen set. -/
theorem flag_operations_do_nothing_on_seen :
    ((sampleMessage 0).OverwriteFlags FlagAnswered).Flags = FlagSeen ∧
      ((sampleMessage 0).OverwriteFlags FlagAnswered).Flags ≠ FlagAnswered ∧
      HasFlags ((sampleMessage 0).AddFlags FlagAnswered).Flags FlagAnswered = false ∧
      HasFlags ((sampleMessage 0).RemoveFlags FlagSeen).Flags FlagSeen = true := by
  decide

/-- C17: `Recent()` is the number of messages whose flags include Recent and
`Unseen()` the number of messages whose flags do not include Seen, both read off
the message list of the call; neither exceeds `Messages()`, and `Unseen()` plus
the number of messages with Seen is `Messages()`. -/
theorem Recent_Unseen_count (m : FilesystemMailbox) (hlt : m.messages.length < 4294967296) :
    m.Recent = m.messages.countP (fun x => HasFlags x.Flags FlagRecent) ∧
      m.Unseen = m.messages.countP (fun x => !HasFlags x.Flags FlagSeen) ∧
      m.Recent ≤ m.Messages ∧ m.Unseen ≤ m.Messages ∧
      m.Unseen + m.messages.countP (fun x => HasFlags x.Flags FlagSeen) = m.Messages := by
  have hr : m.Recent = m.messages.countP (fun x => HasFlags x.Flags FlagRecent) := by
    unfold FilesystemMailbox.Recent
    rw [recentLoop_eq m.messages 0 (by omega)]
    omega
  have hu : m.Unseen = m.messages.countP (fun x => !HasFlags x.Flags FlagSeen) := by
    unfold FilesystemMailbox.Unseen
    rw [unseenLoop_eq m.messages 0 (by omega)]
    omega
  have hm : m.Messages = m.messages.length := wrap_of_lt hlt
  refine ⟨hr, hu, ?_, ?_, ?_⟩
  · rw [hr, hm]
    exact List.countP_le_length _
  · rw [hu, hm]
    exact List.countP_le_length _
  · rw [hu, hm, List.length_eq_countP_add_countP (fun x => HasFlags x.Flags FlagSeen) m.messages]
    rw [Nat.add_comm]
    congr 1
    apply List.countP_congr
    intro x _
    simp

/-- C17 at a mailbox of four messages, two of them Recent and two Seen. -/
theorem Recent_Unseen_count_witness :
    inboxFlags.Recent = inboxFlags.messages.countP (fun x => HasFlags x.Flags FlagRecent) ∧
      inboxFlags.Unseen = inboxFlags.messages.countP (fun x => !HasFlags x.Flags FlagSeen) ∧
      inboxFlags.Recent ≤ inboxFlags.Messages ∧ inboxFlags.Unseen ≤ inboxFlags.Messages ∧
      inboxFlags.Unseen + inboxFlags.messages.countP (fun x => HasFlags x.Flags FlagSeen)
        = inboxFlags.Messages :=
  Recent_Unseen_count inboxFlags (by decide)

/-- The counters of the mailbox of four messages: two Recent, two unseen. -/
theorem Recent_Unseen_sample :
    inboxFlags.Recent = 2 ∧ inboxFlags.Unseen = 2 ∧ inboxFlags.Messages = 4 := by
  decide

/-- C18 at its failing input: in a non-empty mailbox a range whose end is
4294967295 keeps both resolvers inside their range loop. In UID mode the
counting loop is still running whatever the fuel; in sequence-number mode the
loop never reaches its exit either, so no list is returned. -/
theorem range_loops_max_end_never_exit (fuel : Nat) (m : FilesystemMailbox) (start : Nat)
    (h0 : 0 < m.messages.length) (hlt : m.messages.length < 4294967296) :
    m.MessageSetByUID fuel [⟨.num start, .num 4294967295⟩] = .hang ∧
      ∀ l, m.MessageSetBySequenceNumber fuel [⟨.num start, .num 4294967295⟩] ≠ .ok l := by
  have hmax : wrap 4294967295 = 4294967295 := by decide
  constructor
  · unfold FilesystemMailbox.MessageSetByUID
    rw [if_neg (Messages_ne_zero m h0 hlt)]
    simp only [uidSetLoop, SequenceNumber.Last, SequenceNumber.Value, SequenceNumber.Nil,
      Bool.false_eq_true, if_false]
    rw [hmax, uidIndexLoop_max fuel _ (wrap_lt start)]
    rfl
  · intro l h
    unfold FilesystemMailbox.MessageSetBySequenceNumber at h
    rw [if_neg (Messages_ne_zero m h0 hlt)] at h
    simp only [seqSetLoop, SequenceNumber.Last, SequenceNumber.Value, SequenceNumber.Nil,
      Bool.false_eq_true, if_false] at h
    rw [hmax] at h
    cases hloop : seqRangeLoop m fuel (wrap start) 4294967295 [] with
    | ok msgs1 => exact seqRangeLoop_max m fuel _ [] msgs1 (wrap_lt start) hloop
    | panic => rw [hloop] at h; simp at h
    | hang => rw [hloop] at h; simp at h

/-- C18 at the range `1:4294967295` of a mailbox of two messages. -/
theorem range_loops_max_end_never_exit_witness :
    inbox2.MessageSetByUID 64 [⟨.num 1, .num 4294967295⟩] = .hang ∧
      ∀ l, inbox2.MessageSetBySequenceNumber 64 [⟨.num 1, .num 4294967295⟩] ≠ .ok l :=
  range_loops_max_end_never_exit 64 inbox2 1 (by decide) (by decide)

/-- C20: the store is read-only. Every mutator of a message returns the message
as it was, `Save` with an error; `NewMessage` and `DeleteFlaggedMessages` leave
the mailbox as it was, the latter returning the empty list and no error. So a
mailbox whose messages went through a mutator is the same mailbox, with the same
counters and the same resolver results. -/
theorem mailstore_read_only (mb : FilesystemMailbox) (msg : FilesystemMessage) (f : Nat)
    (hdr : List (String × List String)) (body : String) :
    (msg.OverwriteFlags f = msg ∧ msg.AddFlags f = msg ∧ msg.RemoveFlags f = msg ∧
        msg.SetHeaders hdr = msg ∧ msg.SetBody body = msg ∧ msg.Save.1 = msg) ∧
      (∃ e, msg.Save.2 = some e) ∧
      mb.NewMessage.1 = mb ∧ mb.DeleteFlaggedMessages = (mb, [], none) ∧
      ({ mb with messages := mb.messages.map fun x =>
          ((((x.OverwriteFlags f).AddFlags f).RemoveFlags f).SetHeaders hdr).SetBody body } = mb) ∧
      ({ mb with messages := mb.messages.map fun x => x.Save.1 } = mb) ∧
      (mb.NewMessage.1.Messages = mb.Messages ∧ mb.NewMessage.1.Recent = mb.Recent ∧
        mb.NewMessage.1.Unseen = mb.Unseen ∧ mb.NewMessage.1.LastUID = mb.LastUID) ∧
      (mb.DeleteFlaggedMessages.1.Messages = mb.Messages ∧
        mb.DeleteFlaggedMessages.1.Recent = mb.Recent ∧
        mb.DeleteFlaggedMessages.1.Unseen = mb.Unseen ∧
        mb.DeleteFlaggedMessages.1.LastUID = mb.LastUID) ∧
      ∀ fuel set,
        mb.NewMessage.1.MessageSetByUID fuel set = mb.MessageSetByUID fuel set ∧
        mb.NewMessage.1.MessageSetBySequenceNumber fuel set
          = mb.MessageSetBySequenceNumber fuel set ∧
        mb.DeleteFlaggedMessages.1.MessageSetByUID fuel set = mb.MessageSetByUID fuel set ∧
        mb.DeleteFlaggedMessages.1.MessageSetBySequenceNumber fuel set
          = mb.MessageSetBySequenceNumber fuel set := by
  refine ⟨⟨rfl, rfl, rfl, rfl, rfl, rfl⟩, ⟨_, rfl⟩, rfl, rfl, ?_, ?_, ⟨rfl, rfl, rfl, rfl⟩,
    ⟨rfl, rfl, rfl, rfl⟩, fun _ _ => ⟨rfl, rfl, rfl, rfl⟩⟩
  · have : (fun x : FilesystemMessage =>
        ((((x.OverwriteFlags f).AddFlags f).RemoveFlags f).SetHeaders hdr).SetBody body) = id := rfl
    rw [this, List.map_id]
  · have : (fun x : FilesystemMessage => x.Save.1) = id := rfl
    rw [this, List.map_id]

/-- C13: when the walk starts with a directory, `NewFilesystemMailstore` does
not panic and builds a store when no entry reports an error; in every mailbox of
the store built the message at index `i` has the ID `i`, hence the UID and the
sequence number `i + 1`: UIDs and sequence numbers are `1, 2, .., Messages()` in
order, and the lookups by UID `u` and by sequence number `n` return the message
that carries that number. -/
theorem NewFilesystemMailstore_numbers_messages (dirname : String) (e : WalkEntry)
    (rest : List WalkEntry) (hdir : e.info.isDir = true)
    (hlen : rest.length + 1 < 4294967295) :
    (∃ r, NewFilesystemMailstore dirname false (e :: rest) = .ok r) ∧
      ((∀ x ∈ e :: rest, x.err = false) →
        ∃ ms, NewFilesystemMailstore dirname false (e :: rest) = .ok (some ms)) ∧
      ∀ ms, NewFilesystemMailstore dirname false (e :: rest) = .ok (some ms) →
        ∀ mb ∈ ms.mailboxes,
          mb.messages.map FilesystemMessage.ID = List.range mb.messages.length ∧
          mb.messages.map FilesystemMessage.UID = List.range' 1 mb.messages.length ∧
          mb.messages.map FilesystemMessage.SequenceNumber
            = List.range' 1 mb.messages.length ∧
          ∀ n, 1 ≤ n → n ≤ mb.Messages →
            ∃ msg, mb.MessageByUID n = .ok (some msg) ∧ msg.UID = n ∧
              mb.MessageBySequenceNumber n = .ok (some msg) ∧ msg.SequenceNumber = n := by
  unfold NewFilesystemMailstore
  simp only [Bool.false_eq_true, if_false, walkLoop]
  by_cases herr : e.err = true
  · simp only [if_pos herr, Outcome.bind_ok]
    refine ⟨⟨_, rfl⟩, ?_, ?_⟩
    · intro hall
      have := hall e (List.mem_cons_self _ _)
      rw [herr] at this
      exact absurd this (by simp)
    · intro ms h
      simp at h
  · simp only [if_neg herr, if_pos hdir]
    have hinv : WalkInv 1
        { mailboxes := [] ++ [⟨e.path, e.info, 0, []⟩], mbID := wrap (0 + 1), emID := 0,
          temID := 0 } :=
      ⟨[], ⟨e.path, e.info, 0, []⟩, rfl, rfl, rfl, Nat.le_refl _, by
        intro mb hmb
        simp only [List.nil_append, List.mem_singleton] at hmb
        subst hmb
        exact ⟨rfl, by simp⟩⟩
    obtain ⟨⟨r, hr⟩, h2, h3⟩ := walkLoop_inv rest _ 1 hinv (by omega)
    refine ⟨?_, ?_, ?_⟩
    · rw [hr]
      cases r <;> exact ⟨_, rfl⟩
    · intro hall
      obtain ⟨st1, hst⟩ := h2 fun x hx => hall x (List.mem_cons_of_mem _ hx)
      rw [hst]
      exact ⟨_, rfl⟩
    · intro ms hms mb hmb
      rw [hr] at hms
      cases r with
      | none => simp at hms
      | some st1 =>
        simp only [Outcome.bind_ok, Outcome.ok.injEq, Option.some.injEq] at hms
        subst hms
        obtain ⟨_, _, _, _, _, _, hall⟩ := h3 st1 hr
        obtain ⟨hnum, hle⟩ := hall mb hmb
        have hlt : mb.messages.length < 4294967296 := by omega
        obtain ⟨hu, hs⟩ := UID_of_numbered mb hnum hlt
        exact ⟨hnum, hu, hs, fun n h1 hn => lookup_of_numbered mb hnum hlt n h1 hn⟩

/-- C13 at the walk of a root with the directories `INBOX` and `Sent`. -/
theorem NewFilesystemMailstore_numbers_messages_witness :
    (∃ r, NewFilesystemMailstore "." false (dirEntry "." :: sampleWalk.tail) = .ok r) ∧
      ((∀ x ∈ dirEntry "." :: sampleWalk.tail, x.err = false) →
        ∃ ms, NewFilesystemMailstore "." false (dirEntry "." :: sampleWalk.tail)
          = .ok (some ms)) ∧
      ∀ ms, NewFilesystemMailstore "." false (dirEntry "." :: sampleWalk.tail) = .ok (some ms) →
        ∀ mb ∈ ms.mailboxes,
          mb.messages.map FilesystemMessage.ID = List.range mb.messages.length ∧
          mb.messages.map FilesystemMessage.UID = List.range' 1 mb.messages.length ∧
          mb.messages.map FilesystemMessage.SequenceNumber
            = List.range' 1 mb.messages.length ∧
          ∀ n, 1 ≤ n → n ≤ mb.Messages →
            ∃ msg, mb.MessageByUID n = .ok (some msg) ∧ msg.UID = n ∧
              mb.MessageBySequenceNumber n = .ok (some msg) ∧ msg.SequenceNumber = n :=
  NewFilesystemMailstore_numbers_messages "." (dirEntry ".") sampleWalk.tail rfl (by decide)

/-- The store built from the walk of `INBOX` and `Sent`. -/
theorem NewFilesystemMailstore_sample :
    NewFilesystemMailstore "." false sampleWalk
      = .ok (some ⟨".", [⟨"username", "password", false, none⟩],
          [⟨".", ⟨true, 0, 0⟩, 0, []⟩,
            ⟨"INBOX", ⟨true, 0, 0⟩, 1,
              [⟨"INBOX/1", some ⟨false, 120, 0⟩, 0, 1⟩, ⟨"INBOX/2", some ⟨false, 120, 0⟩, 1, 1⟩]⟩,
            ⟨"Sent", ⟨true, 0, 0⟩, 2, [⟨"Sent/1", some ⟨false, 120, 0⟩, 0, 1⟩]⟩]⟩) := by
  rfl

/-- In a mailbox built with the ID of a message its index, `LastUID()` of a
non-empty mailbox is the UID of its last message. -/
theorem LastUID_of_numbered (m : FilesystemMailbox)
    (hnum : m.messages.map FilesystemMessage.ID = List.range m.messages.length)
    (h0 : 0 < m.messages.length) (hlt : m.messages.length < 4294967296) :
    ∃ msg, m.messages[m.messages.length - 1]? = some msg ∧ msg.UID = m.LastUID := by
  have hm : m.Messages = m.messages.length := wrap_of_lt hlt
  obtain ⟨msg, hlook, huid, _, _⟩ :=
    lookup_of_numbered m hnum hlt m.messages.length h0 (by rw [hm])
  refine ⟨msg, ?_, ?_⟩
  · have h := MessageBySequenceNumber_pos m m.messages.length hlt h0 hlt
    have h2 : m.MessageBySequenceNumber m.messages.length = .ok (some msg) := hlook
    rw [h] at h2
    exact Outcome.ok.inj h2
  · rw [huid]
    exact (wrap_of_lt hlt).symm

/-- C19 at its failing input: in the walk `.`, `a`, `a/x`, `b.txt` the file
`b.txt` lies in the root, whose mailbox is `.`; the store built has one mailbox
per directory, and the message of `b.txt` is in the mailbox `a`, the one created
last, with the mailbox `.` left empty. -/
theorem stray_file_joins_last_mailbox :
    NewFilesystemMailstore "." false strayFileWalk
      = .ok (some ⟨".", [⟨"username", "password", false, none⟩],
          [⟨".", ⟨true, 0, 0⟩, 0, []⟩,
            ⟨"a", ⟨true, 0, 0⟩, 1,
              [⟨"a/x", some ⟨false, 120, 0⟩, 0, 1⟩, ⟨"b.txt", some ⟨false, 120, 0⟩, 1, 1⟩]⟩]⟩) := by
  rfl

end Mailstore

namespace Imap

open Mailstore

/-- C12: for every session and every tag, `cmdCapability` writes two lines, the
untagged `CAPABILITY IMAP4rev1 AUTH=PLAIN` and then `<tag> OK CAPABILITY
completed`; the lines do not depend on the session state, and the state and the
user of the session are left as they were. -/
theorem cmdCapability_writes (args : commandArgs) (c : Conn) (htag : args.Id ≠ "") :
    (cmdCapability args c).written
        = c.written ++ ["* CAPABILITY IMAP4rev1 AUTH=PLAIN",
            args.Id ++ " OK CAPABILITY completed"] ∧
      (cmdCapability args c).State = c.State ∧ (cmdCapability args c).User = c.User := by
  have etag : args.Id ++ " " ++ "OK CAPABILITY completed"
      = args.Id ++ " OK CAPABILITY completed" := by
    rw [String.append_assoc]
    rfl
  refine ⟨?_, rfl, rfl⟩
  simp [cmdCapability, Conn.writeResponse, htag, etag]

/-- C12 at the tag `a1`, before login. -/
theorem cmdCapability_writes_witness :
    (cmdCapability ⟨"a1", []⟩ ⟨ConnState.NotAuthenticated, none, []⟩).written
        = [] ++ ["* CAPABILITY IMAP4rev1 AUTH=PLAIN",
            (⟨"a1", []⟩ : commandArgs).Id ++ " OK CAPABILITY completed"] ∧
      (cmdCapability ⟨"a1", []⟩ ⟨ConnState.NotAuthenticated, none, []⟩).State
        = ConnState.NotAuthenticated ∧
      (cmdCapability ⟨"a1", []⟩ ⟨ConnState.NotAuthenticated, none, []⟩).User = none :=
  cmdCapability_writes ⟨"a1", []⟩ ⟨ConnState.NotAuthenticated, none, []⟩ (by decide)

/-- The mailbox loop of `cmdList` writes one line for each mailbox whose name
the compiled expression matches, in the order of the mailboxes. -/
theorem listLoop_eq (RE : RegexpEngine) (re : RE.Regexp) :
    ∀ (mbs : List FilesystemMailbox) (c : Conn),
      listLoop RE re mbs c
        = { c with written := c.written ++
              (mbs.filter fun mb => RE.MatchString re mb.Name).map fun mb =>
                "* LIST () \"/\" \"" ++ mb.Name ++ "\"" } := by
  intro mbs
  induction mbs with
  | nil => intro c; simp [listLoop]
  | cons mb rest ih =>
    intro c
    simp only [listLoop]
    by_cases hm : RE.MatchString re mb.Name = true
    · have e : "*" ++ " " ++ ("LIST () \"/\" \"" ++ mb.Name ++ "\"")
          = "* LIST () \"/\" \"" ++ mb.Name ++ "\"" := by
        rw [String.append_assoc, ← String.append_assoc " ", ← String.append_assoc " ",
          ← String.append_assoc, ← String.append_assoc]
        rfl
      rw [if_pos hm, ih, List.filter_cons, if_pos hm]
      simp only [Conn.writeResponse, if_true, List.map_cons, List.append_assoc,
        List.singleton_append, e]
    · rw [if_neg hm, ih, List.filter_cons, if_neg hm]

/-- C11 on the code: in an authenticated session, for a pattern that compiles,
`cmdList` writes the line `LIST () "/" "<name>"` for exactly the mailboxes, in
the order of `Mailboxes()`, whose name is matched by the regular expression made
of reference and pattern with `*` and `%` rewritten, and then the tagged OK. The
other characters of the pattern reach `regexp.Compile` as they are, operators
included. -/
theorem cmdList_lists_regexp_matches (RE : RegexpEngine) (args : commandArgs) (c : Conn)
    (user : User) (re : RE.Regexp)
    (hauth : c.State = ConnState.Authenticated ∨ c.State = ConnState.Selected)
    (huser : c.User = some user) (htag : args.ID ≠ "") (hname : args.Arg 1 ≠ "")
    (hre : RE.Compile (listPattern (args.Arg 0) (args.Arg 1)) = some re) :
    cmdList RE args c
      = .ok { c with written := c.written ++
          ((user.Mailboxes.filter fun mb => RE.MatchString re mb.Name).map fun mb =>
            "* LIST () \"/\" \"" ++ mb.Name ++ "\"") ++ [args.ID ++ " OK LIST completed"] } := by
  have etag : args.ID ++ " " ++ "OK LIST completed" = args.ID ++ " OK LIST completed" := by
    rw [String.append_assoc]
    rfl
  unfold cmdList
  rw [assertAuthenticated_of_authenticated c _ hauth]
  simp only []
  rw [if_neg hname, hre]
  simp only [huser, listLoop_eq, Conn.writeResponse, if_neg htag, etag]

/-- C11 at the pattern `a.c` and the mailboxes `a.c`, `abc`, `a/c`. -/
theorem cmdList_lists_regexp_matches_witness :
    cmdList fragmentEngine ⟨"a1", ["", "a.c"]⟩ dotConn
      = .ok { dotConn with written := dotConn.written ++
          (([emptyMailbox "a.c", emptyMailbox "abc", emptyMailbox "a/c"].filter fun mb =>
              fragmentEngine.MatchString [.lit 'a', .anyChar, .lit 'c'] mb.Name).map fun mb =>
            "* LIST () \"/\" \"" ++ mb.Name ++ "\"") ++
          [(⟨"a1", ["", "a.c"]⟩ : commandArgs).ID ++ " OK LIST completed"] } :=
  cmdList_lists_regexp_matches fragmentEngine ⟨"a1", ["", "a.c"]⟩ dotConn
    ⟨[emptyMailbox "a.c", emptyMailbox "abc", emptyMailbox "a/c"]⟩ [.lit 'a', .anyChar, .lit 'c']
    (Or.inl rfl) rfl (by decide) (by decide) rfl

/-- The command `a1 LIST "" "a.c"` with the mailboxes `a.c`, `abc` and `a/c`:
all three are listed, the dot of the pattern standing for any character. -/
theorem cmdList_dot_lists_other_names :
    cmdList fragmentEngine ⟨"a1", ["", "a.c"]⟩ dotConn
      = .ok { dotConn with written :=
          ["* LIST () \"/\" \"a.c\"", "* LIST () \"/\" \"abc\"", "* LIST () \"/\" \"a/c\"",
            "a1 OK LIST completed"] } := by
  rfl

end Imap
